import Mathlib

set_option maxHeartbeats 1000000

/-!
Verification of the Readable-Content Extraction & Chart-Mining Pipeline of the
GenUI chatbot backend.  The definitions below are a shallow embedding of
`backend/app/services/content_extractor.py` (the component-tree extractor),
`backend/app/services/pdf_service.py` / `word_service.py` (the keyword data
miner and chart-spec builder) and `word_service.py`'s line-oriented report
parser.  Recursion over JSON-like trees is driven by an explicit fuel
parameter so every function is a computable total Lean definition; the entry
points pass enough fuel for the value at hand, and fuel exhaustion is a
distinguished error that the adequacy theorems rule out.
-/

namespace GenUI

/-- A Python/JSON value as handled by the content extractor: `None`, booleans,
integers, non-integer numeric literals (kept as their source text, since exact
binary-float formatting is outside the model), strings, lists, and dicts
(ordered association lists with unique keys, as produced by the JSON parser
and by Python's insertion-ordered `dict`). -/
inductive JVal where
  | null
  | bool (b : Bool)
  | num (n : Int)
  | flt (lit : String)
  | str (s : String)
  | arr (xs : List JVal)
  | obj (kvs : List (String × JVal))

/-- Python exception kinds the extractor can raise (`props.get` on a non-dict
raises AttributeError, iterating a number raises TypeError, subscripting a
missing dict key raises KeyError), plus fuel exhaustion, which is an artefact
of the fuel-indexed embedding only. -/
inductive PyErr where
  | attributeError
  | typeError
  | keyError
  | outOfFuel
deriving DecidableEq, Repr

/-- First-occurrence lookup in an ordered association list (Python dict access;
keys are unique in values built by the JSON parser). -/
def jlookup : List (String × JVal) → String → Option JVal
  | [], _ => none
  | (k, v) :: kvs, key => if k = key then some v else jlookup kvs key

/-- Dict lookup with a default, modelling `d.get(k, default)` on an actual dict. -/
def jlookupD (kvs : List (String × JVal)) (key : String) (d : JVal) : JVal :=
  (jlookup kvs key).getD d

/-- Membership of a key in a dict (`k in d` for dicts). -/
def hasKey (kvs : List (String × JVal)) (key : String) : Bool :=
  (jlookup kvs key).isSome

/-- Truthiness of a non-integer numeric literal: a decimal literal is falsy iff
its mantissa digits are all zero; the special literals produced for
NaN/Infinity are truthy. -/
def fltTruthy (lit : String) : Bool :=
  if lit = "nan" ∨ lit = "inf" ∨ lit = "-inf" then true
  else
    let mantissa := (lit.toList.takeWhile (fun c => c ≠ 'e' ∧ c ≠ 'E')).filter Char.isDigit
    ¬ mantissa.all (fun c => c = '0')

/-- Python truthiness (`bool(v)`). -/
def pyTruthy : JVal → Bool
  | .null => false
  | .bool b => b
  | .num n => n != 0
  | .flt lit => fltTruthy lit
  | .str s => s != ""
  | .arr xs => !xs.isEmpty
  | .obj kvs => !kvs.isEmpty

mutual

/-- Python `str(v)` as used by f-string interpolation, with a mode flag: `true`
renders in `repr` style (strings quoted), as happens to elements of containers.
String escaping inside `repr` is not modelled; no claim depends on it. -/
def pyStrCore : Bool → JVal → String
  | _, .null => "None"
  | _, .bool b => if b then "True" else "False"
  | _, .num n => toString n
  | _, .flt lit => lit
  | asRepr, .str s => if asRepr then "'" ++ s ++ "'" else s
  | _, .arr xs => "[" ++ String.intercalate ", " (pyStrList xs) ++ "]"
  | _, .obj kvs => "\x7b" ++ String.intercalate ", " (pyStrKVs kvs) ++ "\x7d"

/-- Elementwise `repr` of list elements. -/
def pyStrList : List JVal → List String
  | [] => []
  | x :: xs => pyStrCore true x :: pyStrList xs

/-- Elementwise `repr` of dict entries. -/
def pyStrKVs : List (String × JVal) → List String
  | [] => []
  | (k, v) :: kvs => ("'" ++ k ++ "': " ++ pyStrCore true v) :: pyStrKVs kvs

end

/-- Python `str(v)`. -/
def pyStr (v : JVal) : String := pyStrCore false v

/-- Model of Python `v.get(key, default)`: only dicts have a `.get` attribute;
any other receiver raises AttributeError. -/
def pyGet (v : JVal) (key : String) (d : JVal) : Except PyErr JVal :=
  match v with
  | .obj kvs => .ok (jlookupD kvs key d)
  | _ => .error .attributeError

/-- Model of Python iteration: lists yield their elements, strings yield their
characters as 1-character strings, dicts yield their keys; iterating any other
value raises TypeError. -/
def pyIter : JVal → Except PyErr (List JVal)
  | .arr xs => .ok xs
  | .str s => .ok (s.toList.map (fun c => .str (String.mk [c])))
  | .obj kvs => .ok (kvs.map (fun kv => .str kv.1))
  | _ => .error .typeError

/-- Contiguous-sublist (substring) test on character lists. -/
def subOccurs (needle : List Char) : List Char → Bool
  | [] => needle.isEmpty
  | c :: t => needle.isPrefixOf (c :: t) || subOccurs needle t

/-- Model of Python `key in v` for a string key: dict key membership, substring
test on strings, equality membership on lists; TypeError for other values. -/
def pyIn (key : String) (v : JVal) : Except PyErr Bool :=
  match v with
  | .obj kvs => .ok (hasKey kvs key)
  | .str s => .ok (subOccurs key.toList s.toList)
  | .arr xs => .ok (xs.any (fun x => match x with | .str t => t == key | _ => false))
  | _ => .error .typeError

/-- Model of Python `v[key]` for a string key: dict lookup (KeyError when the
key is absent); TypeError on any other container. -/
def pySubscript (v : JVal) (key : String) : Except PyErr JVal :=
  match v with
  | .obj kvs =>
    match jlookup kvs key with
    | some x => .ok x
    | none => .error .keyError
  | _ => .error .typeError

/-- Model of Python's value-returning `a or b` (first truthy operand). -/
def pyOr (a b : JVal) : JVal := if pyTruthy a then a else b

/-- Effectful map over a list, left to right, aborting on the first error,
exactly like a Python for-loop over the list. -/
def emapM {α β : Type} : List α → (α → Except PyErr β) → Except PyErr (List β)
  | [], _ => .ok []
  | x :: xs, f => do
    let y ← f x
    let ys ← emapM xs f
    .ok (y :: ys)

/-! Character-list implementations of the string primitives the source uses
(`str.lower`, `str.strip`, `str.startswith`, slicing, `str.split` on a
one-character separator).  The case mapping is the ASCII one of
`Char.toLower`; whitespace is `Char.isWhitespace`. -/

/-- Python `str.lower()` (per-character case mapping). -/
def sToLower (s : String) : String := String.mk (s.toList.map Char.toLower)

/-- Python `str.strip()`: drop leading and trailing whitespace. -/
def sTrim (s : String) : String :=
  String.mk
    (((s.toList.dropWhile Char.isWhitespace).reverse.dropWhile Char.isWhitespace).reverse)

/-- Python `str.startswith(p)`. -/
def sStartsWith (s p : String) : Bool := p.toList.isPrefixOf s.toList

/-- Python slicing `s[n:]`. -/
def sDrop (s : String) (n : Nat) : String := String.mk (s.toList.drop n)

/-- Accumulator loop of `splitOnChar`. -/
def splitChAux (c : Char) : List Char → List Char → List String
  | [], acc => [String.mk acc.reverse]
  | x :: xs, acc =>
    if x = c then String.mk acc.reverse :: splitChAux c xs []
    else splitChAux c xs (x :: acc)

/-- Python `str.split(sep)` for a one-character separator (the source only
splits on "|" and "\n"): all fields, empty fields kept. -/
def splitOnChar (c : Char) (s : String) : List String := splitChAux c s.toList []

mutual

/-- Node count of a value; recursion in the extractor only ever descends into
strictly smaller values by this measure. -/
def jsize : JVal → Nat
  | .null => 1
  | .bool _ => 1
  | .num _ => 1
  | .flt _ => 1
  | .str _ => 1
  | .arr xs => 1 + jsizeL xs
  | .obj kvs => 1 + jsizeKV kvs

/-- Summed size of list elements. -/
def jsizeL : List JVal → Nat
  | [] => 0
  | x :: xs => jsize x + jsizeL xs

/-- Summed size of dict values. -/
def jsizeKV : List (String × JVal) → Nat
  | [] => 0
  | (_, v) :: kvs => jsize v + jsizeKV kvs

end

/-! ### The component extractor (`ContentExtractor._extract_component`)

Each `elif comp_type == ...:` branch of the Python method becomes one
definition producing the `parts` it appends; `parts` is a list of raw Python
values, exactly as in the source, because two branches append unconverted
values (`subtitle`, `text`, `description`) which make the final
`"\n".join(...)` raise TypeError when a truthy non-string survives. -/

/-- The header/inlineHeader branch: a level-2 heading from title/heading, then
subtitle/description (appended raw) as prose. -/
def headerParts (props : JVal) : Except PyErr (List JVal) := do
  let t1 ← pyGet props "title" (.str "")
  let t2 ← pyGet props "heading" (.str "")
  let title := pyOr t1 t2
  let s1 ← pyGet props "subtitle" (.str "")
  let s2 ← pyGet props "description" (.str "")
  let subtitle := pyOr s1 s2
  .ok ((if pyTruthy title then [JVal.str ("## " ++ pyStr title)] else []) ++
    (if pyTruthy subtitle then [subtitle] else []))

/-- The textContent/text/paragraph branch: first truthy of
textMarkdown/text/content, appended raw. -/
def textParts (props : JVal) : Except PyErr (List JVal) := do
  let a ← pyGet props "textMarkdown" (.str "")
  let b ← pyGet props "text" (.str "")
  let c ← pyGet props "content" (.str "")
  let text := pyOr a (pyOr b c)
  .ok (if pyTruthy text then [text] else [])

/-- The dataTile/miniCard branch: "**description**: amount" when both truthy,
then the reduction of a dict-valued `lhs` if present. -/
def dataTileParts (recur : List (String × JVal) → Except PyErr String) (props : JVal) :
    Except PyErr (List JVal) := do
  let amount ← pyGet props "amount" (.str "")
  let description ← pyGet props "description" (.str "")
  let base := if pyTruthy amount && pyTruthy description then
      [JVal.str ("**" ++ pyStr description ++ "**: " ++ pyStr amount)]
    else []
  let lhs ← pyGet props "lhs" .null
  match lhs with
  | .obj lk => do
    let s ← recur lk
    .ok (base ++ [JVal.str s])
  | _ => .ok base

/-- The card branch: "**title**: value" or "**title**" alone. -/
def cardParts (props : JVal) : Except PyErr (List JVal) := do
  let title ← pyGet props "title" (.str "")
  let value ← pyGet props "value" (.str "")
  .ok (if pyTruthy title then
      if pyTruthy value then [JVal.str ("**" ++ pyStr title ++ "**: " ++ pyStr value)]
      else [JVal.str ("**" ++ pyStr title ++ "**")]
    else [])

/-- One list item: dict items render "- title: value" / "- **title**: subtitle"
/ "- title"; string items render "- item"; other items are skipped. -/
def listItemPart (item : JVal) : List JVal :=
  match item with
  | .obj ik =>
    let title := jlookupD ik "title" (.str "")
    let subtitle := jlookupD ik "subtitle" (.str "")
    let value := jlookupD ik "value" (.str "")
    if pyTruthy title then
      if pyTruthy value then [JVal.str ("- " ++ pyStr title ++ ": " ++ pyStr value)]
      else if pyTruthy subtitle then
        [JVal.str ("- **" ++ pyStr title ++ "**: " ++ pyStr subtitle)]
      else [JVal.str ("- " ++ pyStr title)]
    else []
  | .str s => [JVal.str ("- " ++ s)]
  | _ => []

/-- The list branch: optional level-3 heading, raw description, then one
bullet per item. -/
def listParts (props : JVal) : Except PyErr (List JVal) := do
  let heading ← pyGet props "heading" (.str "")
  let description ← pyGet props "description" (.str "")
  let items ← pyGet props "items" (.arr [])
  let hd := (if pyTruthy heading then [JVal.str ("### " ++ pyStr heading)] else []) ++
    (if pyTruthy description then [description] else [])
  let elems ← pyIter items
  .ok (hd ++ (elems.map listItemPart).flatten)

/-- Header-cell text: `str(cell.get("children", ""))` for dict cells, else
`str(cell)`. -/
def tableCellText (cell : JVal) : String :=
  match cell with
  | .obj ck => pyStr (jlookupD ck "children" (.str ""))
  | c => pyStr c

/-- One body row: dict rows render their list-valued `children`, list rows
render their elements; other rows are skipped. -/
def tableRowPart (row : JVal) : List JVal :=
  match row with
  | .obj rk =>
    match jlookupD rk "children" (.arr []) with
    | .arr cs => [JVal.str ("| " ++ String.intercalate " | " (cs.map pyStr) ++ " |")]
    | _ => []
  | .arr cs => [JVal.str ("| " ++ String.intercalate " | " (cs.map pyStr) ++ " |")]
  | _ => []

/-- The table branch: pipe-delimited header line plus dash separator from
`tableHeader.rows`, then one line per `tableBody.rows` entry. -/
def tableParts (props : JVal) : Except PyErr (List JVal) := do
  let header ← pyGet props "tableHeader" (.obj [])
  let body ← pyGet props "tableBody" (.obj [])
  let headerRows ← pyGet header "rows" (.arr [])
  let bodyRows ← pyGet body "rows" (.arr [])
  let hparts ← if pyTruthy headerRows then do
      let cells ← pyIter headerRows
      let headerCells := cells.map tableCellText
      pure (if headerCells.isEmpty then ([] : List JVal) else
        [JVal.str ("| " ++ String.intercalate " | " headerCells ++ " |"),
          JVal.str ("| " ++ String.intercalate " | "
            (List.replicate headerCells.length "---") ++ " |")])
    else pure ([] : List JVal)
  let rows ← pyIter bodyRows
  .ok (hparts ++ (rows.map tableRowPart).flatten)

/-- One series entry of the dict-shaped chart data: when both labels and this
series' values are truthy, zip them into "- label: value" bullets. -/
def chartSeriesPart (labels : JVal) (s : JVal) : Except PyErr (List JVal) :=
  match s with
  | .obj sk =>
    let values := jlookupD sk "values" (.arr [])
    if pyTruthy labels && pyTruthy values then do
      let ls ← pyIter labels
      let vs ← pyIter values
      .ok ((ls.zip vs).map (fun lv => JVal.str ("- " ++ pyStr lv.1 ++ ": " ++ pyStr lv.2)))
    else .ok []
  | _ => .ok []

/-- One record of the flat (pie-style) chart data: "- category: value" when
category is truthy and value is not None. -/
def chartFlatItemPart (item : JVal) : List JVal :=
  match item with
  | .obj ik =>
    let cat := jlookupD ik "category" (.str "")
    let val := jlookupD ik "value" (.str "")
    if pyTruthy cat then
      match val with
      | .null => []
      | _ => [JVal.str ("- " ++ pyStr cat ++ ": " ++ pyStr val)]
    else []
  | _ => []

/-- The chart branch (bar/pie/line, v1 or v2): optional level-3 heading, then
bullets from every series in order, or from top-level values/data when the
series list is falsy, or from flat category/value records. -/
def chartParts (props : JVal) : Except PyErr (List JVal) := do
  let t1 ← pyGet props "title" (.str "")
  let t2 ← pyGet props "heading" (.str "")
  let title := pyOr t1 t2
  let chartData ← pyGet props "chartData" (.obj [])
  let data ← pyGet chartData "data" (.obj [])
  let tparts := if pyTruthy title then [JVal.str ("### " ++ pyStr title)] else []
  match data with
  | .obj dk =>
    let labels := jlookupD dk "labels" (.arr [])
    let series := jlookupD dk "series" (.arr [])
    do
      let selems ← pyIter series
      let sparts ← emapM selems (chartSeriesPart labels)
      let nparts ←
        if pyTruthy series then pure ([] : List JVal)
        else
          let values := pyOr (jlookupD dk "values" (.arr [])) (jlookupD dk "data" (.arr []))
          if pyTruthy labels && pyTruthy values then do
            let ls ← pyIter labels
            let vs ← pyIter values
            pure ((ls.zip vs).map (fun lv =>
              JVal.str ("- " ++ pyStr lv.1 ++ ": " ++ pyStr lv.2)))
          else pure ([] : List JVal)
      .ok (tparts ++ sparts.flatten ++ nparts)
  | .arr items => .ok (tparts ++ (items.map chartFlatItemPart).flatten)
  | _ => .ok tparts

/-- Reduction of one child of a child-component loop (`sectionBlock` content,
`layout` slot lists, `miniCardBlock` children): dict children are reduced and
appended unconditionally, other children are skipped. -/
def childCompPart (recur : List (String × JVal) → Except PyErr String) (child : JVal) :
    Except PyErr (List JVal) :=
  match child with
  | .obj ck => do
    let s ← recur ck
    .ok [JVal.str s]
  | _ => .ok []

/-- One section of a sectionBlock: a level-3 heading from the trigger, then
the reduction of each dict in its content list. -/
def sectionPart (recur : List (String × JVal) → Except PyErr String) (sec : JVal) :
    Except PyErr (List JVal) :=
  match sec with
  | .obj sk => do
    let trigger := jlookupD sk "trigger" (.str "")
    let content := jlookupD sk "content" (.arr [])
    let celems ← pyIter content
    let cparts ← emapM celems (childCompPart recur)
    .ok ((if pyTruthy trigger then [JVal.str ("### " ++ pyStr trigger)] else []) ++
      cparts.flatten)
  | _ => .ok []

/-- The sectionBlock branch. -/
def sectionBlockParts (recur : List (String × JVal) → Except PyErr String) (props : JVal) :
    Except PyErr (List JVal) := do
  let sections ← pyGet props "sections" (.arr [])
  let selems ← pyIter sections
  let parts ← emapM selems (sectionPart recur)
  .ok parts.flatten

/-- One layout slot (`headerLeft`/`headerRight`/`mediumLeft`/`mediumRight`):
reduce a dict value, or each dict in a list value. -/
def layoutSlotParts (recur : List (String × JVal) → Except PyErr String)
    (row : List (String × JVal)) (key : String) : Except PyErr (List JVal) :=
  if hasKey row key then
    match jlookupD row key .null with
    | .obj ok2 => do
      let s ← recur ok2
      .ok [JVal.str s]
    | .arr items => do
      let ps ← emapM items (childCompPart recur)
      .ok ps.flatten
    | _ => .ok []
  else .ok []

/-- One layout row: its four named slots in fixed order. -/
def layoutRowParts (recur : List (String × JVal) → Except PyErr String) (row : JVal) :
    Except PyErr (List JVal) :=
  match row with
  | .obj rk => do
    let ps ← emapM ["headerLeft", "headerRight", "mediumLeft", "mediumRight"]
      (layoutSlotParts recur rk)
    .ok ps.flatten
  | _ => .ok []

/-- The layout branch: descend `children.rows[].slots`. -/
def layoutParts (recur : List (String × JVal) → Except PyErr String) (props : JVal) :
    Except PyErr (List JVal) := do
  let children ← pyGet props "children" (.obj [])
  match children with
  | .obj ck =>
    let rows := jlookupD ck "rows" (.arr [])
    do
      let relems ← pyIter rows
      let ps ← emapM relems (layoutRowParts recur)
      .ok ps.flatten
  | _ => .ok []

/-- The miniCardBlock branch: reduce each dict child in order. -/
def miniCardBlockParts (recur : List (String × JVal) → Except PyErr String) (props : JVal) :
    Except PyErr (List JVal) := do
  let children ← pyGet props "children" (.arr [])
  let celems ← pyIter children
  let ps ← emapM celems (childCompPart recur)
  .ok ps.flatten

/-- Whether an already-accumulated part equals the given string (Python
`child_content not in parts`; cross-type equality is always false). -/
def jcontains (parts : List JVal) (s : String) : Bool :=
  parts.any (fun p => match p with | .str t => t == s | _ => false)

/-- The universal post-step body for one child: reduce a dict child and append
its text unless empty or an exact duplicate of an existing part. -/
def postChildFold (recur : List (String × JVal) → Except PyErr String)
    (child : JVal) (parts : List JVal) : Except PyErr (List JVal) :=
  match child with
  | .obj ck => do
    let cc ← recur ck
    .ok (if cc != "" && !jcontains parts cc then parts ++ [JVal.str cc] else parts)
  | _ => .ok parts

/-- Sequential fold of the post-step over a children list. -/
def postChildrenLoop (recur : List (String × JVal) → Except PyErr String) :
    List JVal → List JVal → Except PyErr (List JVal)
  | [], parts => .ok parts
  | child :: rest, parts => do
    let parts2 ← postChildFold recur child parts
    postChildrenLoop recur rest parts2

/-- The universal post-step for one of the keys "children"/"content": the
source tests `key in props` (substring test when props is a string, TypeError
when it is not iterable) and then subscripts `props[key]`. -/
def postKeyStep (recur : List (String × JVal) → Except PyErr String)
    (props : JVal) (key : String) (parts : List JVal) : Except PyErr (List JVal) := do
  let present ← pyIn key props
  if present then do
    let val ← pySubscript props key
    match val with
    | .arr childs => postChildrenLoop recur childs parts
    | _ => .ok parts
  else .ok parts

/-- The universal post-step: `children` then `content`. -/
def postStep (recur : List (String × JVal) → Except PyErr String)
    (props : JVal) (parts : List JVal) : Except PyErr (List JVal) := do
  let p1 ← postKeyStep recur props "children" parts
  postKeyStep recur props "content" p1

/-- Collect the parts when they are all strings (the precondition for Python's
`str.join` not to raise). -/
def allStrings : List JVal → Option (List String)
  | [] => some []
  | .str s :: rest => (allStrings rest).map (fun l => s :: l)
  | _ => none

/-- The final join of `_extract_component`: `"\n".join(filter(None, parts))` —
drop falsy parts, then join; a surviving truthy non-string raises TypeError. -/
def finishParts (parts : List JVal) : Except PyErr String :=
  match allStrings (parts.filter pyTruthy) with
  | some strs => .ok (String.intercalate "\n" strs)
  | none => .error .typeError

/-- The chart-variant membership test of `_extract_component`
(`comp_type in ["barChartV2", ...]` after lower-casing). -/
def chartKindB (ct : String) : Bool :=
  ["barchartv2", "barchart", "piechartv2", "piechart",
    "linechartv2", "linechart"].contains ct

/-- The per-kind dispatch of `_extract_component` (the comparison string is
the lower-cased discriminant; unmatched kinds contribute no branch parts). -/
def compParts (recur : List (String × JVal) → Except PyErr String)
    (ct : String) (props : JVal) : Except PyErr (List JVal) :=
  if ct = "header" ∨ ct = "inlineheader" then headerParts props
  else if ct = "textcontent" ∨ ct = "text" ∨ ct = "paragraph" then textParts props
  else if ct = "datatile" ∨ ct = "minicard" then dataTileParts recur props
  else if ct = "card" then cardParts props
  else if ct = "list" then listParts props
  else if ct = "table" then tableParts props
  else if chartKindB ct then chartParts props
  else if ct = "sectionblock" then sectionBlockParts recur props
  else if ct = "layout" then layoutParts recur props
  else if ct = "minicardblock" then miniCardBlockParts recur props
  else .ok []

/-- Fuel-indexed embedding of `ContentExtractor._extract_component`.  A
dict-valued discriminant recurses into the wrapped component; otherwise the
lower-cased discriminant selects a branch, the universal post-step reduces
`children`/`content` arrays under props, and the surviving parts are joined. -/
def extractComponentF : Nat → List (String × JVal) → Except PyErr String
  | 0, _ => .error .outOfFuel
  | fuel + 1, comp =>
    match jlookupD comp "component" (.str "") with
    | .obj inner => extractComponentF fuel inner
    | ctv =>
      let ct := match ctv with | .str s => sToLower s | _ => ""
      let props := jlookupD comp "props" (.obj [])
      do
        let parts ← compParts (extractComponentF fuel) ct props
        let parts2 ← postStep (extractComponentF fuel) props parts
        finishParts parts2

/-- The six special keys tried on a component-free dict, in source order. -/
def specialKeys : List String := ["component", "content", "children", "sections", "items", "rows"]

/-- The denylist of purely presentational keys skipped by the generic dict
fallback. -/
def denyKeys : List String := ["iconName", "iconCategory", "variant", "type", "isFoldable", "value"]

/-- Fuel-indexed embedding of `ContentExtractor._extract_all`: primitives
render to their string form, lists join non-empty element reductions with a
blank line, dicts dispatch to the component extractor or to the special-key /
generic-fallback reduction. -/
def extractAllF : Nat → JVal → Except PyErr String
  | 0, _ => .error .outOfFuel
  | fuel + 1, v =>
    match v with
    | .null => .ok ""
    | .str s => .ok s
    | .num n => .ok (toString n)
    | .flt lit => .ok lit
    | .bool b => .ok (if b then "True" else "False")
    | .arr xs => do
      let parts ← emapM xs (extractAllF fuel)
      .ok (String.intercalate "\n\n" (parts.filter (fun s => s != "")))
    | .obj kvs =>
      if hasKey kvs "component" then extractComponentF (fuel + 1) kvs
      else do
        let sparts ← emapM (specialKeys.filterMap (fun k => jlookup kvs k)) (extractAllF fuel)
        let sparts2 := sparts.filter (fun s => s != "")
        if sparts2.isEmpty then do
          let rest := kvs.filter (fun kv => !denyKeys.contains kv.1)
          let rparts ← emapM rest (fun kv => extractAllF fuel kv.2)
          .ok (String.intercalate "\n\n" (rparts.filter (fun s => s != "")))
        else .ok (String.intercalate "\n\n" sparts2)

/-! ### JSON parsing (model of `json.loads`)

A recursive-descent parser for the grammar accepted by Python's default
`json.loads`: the RFC 8259 grammar plus the `NaN`/`Infinity`/`-Infinity`
constants, strict about control characters inside strings, leading zeros and
trailing data.  Integer literals become `JVal.num`; literals with a fraction
or exponent (and the non-finite constants) become `JVal.flt` carrying a
display literal, since binary floating point is outside the model.  Duplicate
object keys keep the first key's position with the last value, like a Python
dict built by repeated assignment.  The parser is fueled; each recursive call
consumes at least one input character first, so `length + 1` fuel always
suffices, and both sides of every theorem use the same function. -/

/-- JSON insignificant whitespace. -/
def jsonWs (c : Char) : Bool := c = ' ' ∨ c = '\t' ∨ c = '\n' ∨ c = '\r'

/-- Drop leading JSON whitespace. -/
def skipWs : List Char → List Char
  | c :: cs => if jsonWs c then skipWs cs else c :: cs
  | [] => []

/-- ASCII decimal digit test. -/
def isDigitCh (c : Char) : Bool := '0' ≤ c ∧ c ≤ '9'

/-- Split a maximal run of ASCII digits. -/
def takeDigits : List Char → List Char × List Char
  | c :: cs =>
    if isDigitCh c then
      let p := takeDigits cs
      (c :: p.1, p.2)
    else ([], c :: cs)
  | [] => ([], [])

/-- Numeric value of a digit run. -/
def digitsToNat (ds : List Char) : Nat :=
  ds.foldl (fun acc c => acc * 10 + (c.toNat - '0'.toNat)) 0

/-- Hex digit value. -/
def hexDigitVal (c : Char) : Option Nat :=
  if '0' ≤ c ∧ c ≤ '9' then some (c.toNat - '0'.toNat)
  else if 'a' ≤ c ∧ c ≤ 'f' then some (c.toNat - 'a'.toNat + 10)
  else if 'A' ≤ c ∧ c ≤ 'F' then some (c.toNat - 'A'.toNat + 10)
  else none

/-- Named escape characters of JSON strings. -/
def jsonEscape : Char → Option Char
  | '"' => some '"'
  | '\\' => some '\\'
  | '/' => some '/'
  | 'b' => some (Char.ofNat 8)
  | 'f' => some (Char.ofNat 12)
  | 'n' => some '\n'
  | 'r' => some '\r'
  | 't' => some '\t'
  | _ => none

/-- Parse the body of a JSON string after the opening quote (strict mode:
unescaped control characters are rejected; `\uXXXX` becomes the scalar with
that code, surrogate-pair recombination is not modelled). -/
def parseJStr (acc : List Char) : List Char → Except Unit (String × List Char)
  | '"' :: rest => .ok (String.mk acc.reverse, rest)
  | '\\' :: 'u' :: a :: b :: c :: d :: rest =>
    match hexDigitVal a, hexDigitVal b, hexDigitVal c, hexDigitVal d with
    | some va, some vb, some vc, some vd =>
      parseJStr (Char.ofNat (((va * 16 + vb) * 16 + vc) * 16 + vd) :: acc) rest
    | _, _, _, _ => .error ()
  | '\\' :: e :: rest =>
    match jsonEscape e with
    | some ch => parseJStr (ch :: acc) rest
    | none => .error ()
  | c :: rest => if c.toNat < 32 then .error () else parseJStr (c :: acc) rest
  | [] => .error ()

/-- Parse a JSON number: optional minus, an integer part without leading
zeros, optional fraction and exponent.  Pure-integer literals yield `num`;
anything with a fraction or exponent yields `flt` with the literal text. -/
def parseJNum (cs : List Char) : Except Unit (JVal × List Char) :=
  let (neg, cs1) := match cs with | '-' :: r => (true, r) | _ => (false, cs)
  match cs1 with
  | c :: _ =>
    if ¬ isDigitCh c then .error ()
    else
      let (intDs, cs2) := takeDigits cs1
      if intDs.length > 1 ∧ intDs.headD '0' = '0' then .error ()
      else
        let (fracDs, cs3) :=
          match cs2 with
          | '.' :: r =>
            let p := takeDigits r
            (p.1, p.2)
          | _ => ([], cs2)
        if (match cs2 with | '.' :: _ => fracDs.isEmpty | _ => false) then .error ()
        else
          let expPart : Option (List Char × List Char) :=
            match cs3 with
            | 'e' :: r | 'E' :: r =>
              let (sgn, r2) := match r with
                | '+' :: r2 => (['+'], r2)
                | '-' :: r2 => (['-'], r2)
                | _ => ([], r)
              let p := takeDigits r2
              if p.1.isEmpty then none else some (sgn ++ p.1, p.2)
            | _ => some ([], cs3)
          match expPart with
          | none => .error ()
          | some (expDs, cs4) =>
            if fracDs.isEmpty ∧ expDs.isEmpty then
              let n : Int := digitsToNat intDs
              .ok (.num (if neg then -n else n), cs4)
            else
              let lit := (if neg then "-" else "") ++ String.mk intDs ++
                (if fracDs.isEmpty then "" else "." ++ String.mk fracDs) ++
                (if expDs.isEmpty then "" else
                  String.mk ('e' :: (match cs3 with | 'E' :: _ => expDs | _ => expDs)))
              .ok (.flt lit, cs4)
  | [] => .error ()

/-- Insert a parsed object member: a repeated key keeps its first position
but takes the new value, like assignment into a Python dict. -/
def insertKV (kvs : List (String × JVal)) (k : String) (v : JVal) :
    List (String × JVal) :=
  match kvs with
  | [] => [(k, v)]
  | (k0, v0) :: rest =>
    if k0 = k then (k0, v) :: rest else (k0, v0) :: insertKV rest k v

mutual

/-- Parse one JSON value at the current position (no leading whitespace). -/
def parseJVal : Nat → List Char → Except Unit (JVal × List Char)
  | 0, _ => .error ()
  | fuel + 1, cs =>
    match cs with
    | '"' :: rest => (parseJStr [] rest).map (fun p => (.str p.1, p.2))
    | '\x7b' :: rest =>
      let rest1 := skipWs rest
      match rest1 with
      | '\x7d' :: rest2 => .ok (.obj [], rest2)
      | _ => (parseJMembers fuel [] rest1).map (fun p => (.obj p.1, p.2))
    | '[' :: rest =>
      let rest1 := skipWs rest
      match rest1 with
      | ']' :: rest2 => .ok (.arr [], rest2)
      | _ => (parseJElems fuel [] rest1).map (fun p => (.arr p.1, p.2))
    | 't' :: 'r' :: 'u' :: 'e' :: rest => .ok (.bool true, rest)
    | 'f' :: 'a' :: 'l' :: 's' :: 'e' :: rest => .ok (.bool false, rest)
    | 'n' :: 'u' :: 'l' :: 'l' :: rest => .ok (.null, rest)
    | 'N' :: 'a' :: 'N' :: rest => .ok (.flt "nan", rest)
    | 'I' :: 'n' :: 'f' :: 'i' :: 'n' :: 'i' :: 't' :: 'y' :: rest => .ok (.flt "inf", rest)
    | '-' :: 'I' :: 'n' :: 'f' :: 'i' :: 'n' :: 'i' :: 't' :: 'y' :: rest =>
      .ok (.flt "-inf", rest)
    | _ => parseJNum cs

/-- Parse the members of an object after `{` (position already at the first
member, whitespace skipped). -/
def parseJMembers : Nat → List (String × JVal) → List Char →
    Except Unit (List (String × JVal) × List Char)
  | 0, _, _ => .error ()
  | fuel + 1, acc, cs =>
    match cs with
    | '"' :: rest => do
      let (key, rest1) ← parseJStr [] rest
      match skipWs rest1 with
      | ':' :: rest2 => do
        let (v, rest3) ← parseJVal fuel (skipWs rest2)
        let acc2 := insertKV acc key v
        match skipWs rest3 with
        | ',' :: rest4 => parseJMembers fuel acc2 (skipWs rest4)
        | '\x7d' :: rest4 => .ok (acc2, rest4)
        | _ => .error ()
      | _ => .error ()
    | _ => .error ()

/-- Parse the elements of an array after `[` (position already at the first
element, whitespace skipped). -/
def parseJElems : Nat → List JVal → List Char →
    Except Unit (List JVal × List Char)
  | 0, _, _ => .error ()
  | fuel + 1, acc, cs => do
    let (v, rest) ← parseJVal fuel cs
    match skipWs rest with
    | ',' :: rest2 => parseJElems fuel (acc ++ [v]) (skipWs rest2)
    | ']' :: rest2 => .ok (acc ++ [v], rest2)
    | _ => .error ()

end

/-- Model of `json.loads`: skip surrounding whitespace, parse one value, and
reject trailing data. -/
def json_loads (s : String) : Except Unit JVal :=
  let cs := s.toList
  match parseJVal (cs.length + 1) (skipWs cs) with
  | .ok (v, rest) => if skipWs rest = [] then .ok v else .error ()
  | .error _ => .error ()

/-! ### The string front end (`ContentExtractor.extract_readable_content`) -/

/-- HTML-entity decoding, modelling `html.unescape` on the predefined XML
entities and numeric character references with a terminating semicolon (the
full HTML5 named-entity table and the semicolon-less legacy forms are outside
the model; every claim proved below holds uniformly in the decode function). -/
def htmlUnescapeL : Nat → List Char → List Char
  | 0, cs => cs
  | _ + 1, [] => []
  | fuel + 1, '&' :: rest =>
    let named : List (List Char × Char) :=
      [("quot".toList, '"'), ("amp".toList, '&'), ("lt".toList, '<'),
        ("gt".toList, '>'), ("apos".toList, Char.ofNat 39)]
    match named.findSome? (fun nc =>
        if (nc.1 ++ [';']).isPrefixOf rest then
          some (nc.2, rest.drop (nc.1.length + 1))
        else none) with
    | some (c, rest2) => c :: htmlUnescapeL fuel rest2
    | none =>
      match rest with
      | '#' :: 'x' :: r2 =>
        let (hs, r3) := (r2.takeWhile (fun c => (hexDigitVal c).isSome),
          r2.dropWhile (fun c => (hexDigitVal c).isSome))
        match r3 with
        | ';' :: r4 =>
          if hs.isEmpty then '&' :: htmlUnescapeL fuel rest
          else Char.ofNat (hs.foldl (fun a c => a * 16 + (hexDigitVal c).getD 0) 0) ::
            htmlUnescapeL fuel r4
        | _ => '&' :: htmlUnescapeL fuel rest
      | '#' :: r2 =>
        let (ds, r3) := takeDigits r2
        match r3 with
        | ';' :: r4 =>
          if ds.isEmpty then '&' :: htmlUnescapeL fuel rest
          else Char.ofNat (digitsToNat ds) :: htmlUnescapeL fuel r4
        | _ => '&' :: htmlUnescapeL fuel rest
      | _ => '&' :: htmlUnescapeL fuel rest
  | fuel + 1, c :: rest => c :: htmlUnescapeL fuel rest

/-- Model of `html.unescape`. -/
def htmlUnescape (s : String) : String :=
  String.mk (htmlUnescapeL (s.length + 1) s.toList)

/-- Find the end of the first `</content>` closing tag from the current
position, returning the inner text scanned so far. -/
def findCloseTag (acc : List Char) : Nat → List Char → Option (List Char × List Char)
  | 0, _ => none
  | _ + 1, [] => none
  | fuel + 1, c :: rest =>
    if "</content>".toList.isPrefixOf (c :: rest) then
      some (acc.reverse, (c :: rest).drop "</content>".length)
    else findCloseTag (c :: acc) fuel rest

/-- Try to match `<content[^>]*>(.*?)</content>` at the current position:
the literal `<content`, a run of non-`>` characters, `>`, then the shortest
inner text up to the first `</content>`. -/
def contentTagAt (cs : List Char) : Option (List Char) :=
  if "<content".toList.isPrefixOf cs then
    let afterName := cs.drop "<content".length
    let afterAttrs := afterName.dropWhile (fun c => c ≠ '>')
    match afterAttrs with
    | '>' :: inner => (findCloseTag [] (inner.length + 1) inner).map (fun p => p.1)
    | _ => none
  else none

/-- Leftmost match of `re.search(r"<content[^>]*>(.*?)</content>", s, DOTALL)`:
the inner text of the first content envelope, if any. -/
def contentSearchL : Nat → List Char → Option (List Char)
  | 0, _ => none
  | _ + 1, [] => none
  | fuel + 1, c :: rest =>
    match contentTagAt (c :: rest) with
    | some inner => some inner
    | none => contentSearchL fuel rest

/-- The `<content>` envelope search on strings. -/
def contentSearch (s : String) : Option String :=
  (contentSearchL (s.length + 1) s.toList).map String.mk

/-- The brace-depth scan of `extract_readable_content`: walk the characters
counting `{` up and `}` down, and report the position one past the `}` that
first returns the count to zero (`end` in the source; `None` models the
`end == 0` fall-through). -/
def braceScanFrom : Nat → Int → List Char → Option Nat
  | _, _, [] => none
  | i, depth, c :: rest =>
    if c = '\x7b' then braceScanFrom (i + 1) (depth + 1) rest
    else if c = '\x7d' then
      if depth - 1 = 0 then some (i + 1) else braceScanFrom (i + 1) (depth - 1) rest
    else braceScanFrom (i + 1) depth rest

/-- Brace scan over a string, from the start. -/
def braceScanEnd (s : String) : Option Nat := braceScanFrom 0 0 s.toList

/-- Take the first `n` characters of a string (the `json_str[:end]` slice). -/
def strTake (s : String) (n : Nat) : String := String.mk (s.toList.take n)

/-- The working string: the envelope's inner text when a `<content>` tag is
present, else the whole decoded response, stripped. -/
def workingStr (decoded : String) : String :=
  match contentSearch decoded with
  | some inner => sTrim inner
  | none => sTrim decoded

/-- The parse stage of `extract_readable_content`: strict `json.loads`, then
on failure — only when the working string starts with `{` — the balanced-brace
prefix scan followed by a parse of that prefix; `none` means both parses
failed and the decoded response is returned verbatim. -/
def parseStage (js : String) : Option JVal :=
  match json_loads js with
  | .ok v => some v
  | .error _ =>
    if sStartsWith js "\x7b" then
      match braceScanEnd js with
      | some e =>
        match json_loads (strTake js e) with
        | .ok v => some v
        | .error _ => none
      | none => none
    else none

/-- Embedding of `ContentExtractor.extract_readable_content`: empty input
returns empty output; otherwise decode HTML entities, select the working
string, parse it (strictly, then by balanced-prefix recovery) and reduce the
parsed value, falling back to the decoded response verbatim when no parse
succeeds.  JSON parse failures are consumed here and never surface; the only
errors the function can return come from the reduction of a parsed value
(see the C1 theorems). -/
def extract_readable_content (response : String) : Except PyErr String :=
  if response = "" then .ok ""
  else
    match parseStage (workingStr (htmlUnescape response)) with
    | some v => extractAllF (jsize v) v
    | none => .ok (htmlUnescape response)

/-! ### The keyword data miner (`_extract_generic_data`)

`PDFService._extract_generic_data` and `WordService._extract_generic_data`
are textually identical: for each keyword six regex patterns are tried in
order, the first with any match wins, and the captured number is stored.
The patterns are fixed regex shapes, so each is embedded as a direct
character scanner with Python `re` semantics: `re.findall` scans for the
leftmost match and continues after each match's end, `(\d+)` is effectively
the maximal digit run at its position (a shorter run is always followed by a
digit, which no continuation of these patterns accepts), and the lazy runs
`[^|]*?` / `[^\d]*?` stop at the first position whose continuation matches.
Character classes are modelled on ASCII (`\d` as ASCII digits, `\s` via
`Char.isWhitespace`); `re.IGNORECASE` is modelled by `Char.toLower`; the
keywords used by the services are literal words with no leading whitespace
or bullet characters, which the scanners assume. -/

/-- Case-insensitive character comparison (`re.IGNORECASE`). -/
def lowerEq (a b : Char) : Bool := a.toLower = b.toLower

/-- Match a literal keyword case-insensitively at the head, returning the
rest of the input. -/
def matchCI : List Char → List Char → Option (List Char)
  | [], rest => some rest
  | _ :: _, [] => none
  | k :: ks, c :: cs => if lowerEq k c then matchCI ks cs else none

/-- Whitespace class `\s` (ASCII model). -/
def isWsCh (c : Char) : Bool := c.isWhitespace

/-- Drop a (possibly empty) whitespace run, `\s*`. -/
def skipWsRun (cs : List Char) : List Char := cs.dropWhile isWsCh

/-- Try a positional matcher at every position, leftmost first — the first
capture that `re.findall` would report. -/
def scanFirst {α : Type} (f : List Char → Option α) : List Char → Option α
  | [] => f []
  | c :: cs =>
    match f (c :: cs) with
    | some v => some v
    | none => scanFirst f cs

/-- Pattern 1 at one position: `[-•*]?\s*KEYWORD\s*[:\-–]\s*(\d+)`. -/
def p1At (kw : List Char) (cs : List Char) : Option Nat :=
  let cs1 := match cs with
    | c :: r => if c = '-' ∨ c = '•' ∨ c = '*' then r else c :: r
    | [] => []
  match matchCI kw (skipWsRun cs1) with
  | none => none
  | some r1 =>
    match skipWsRun r1 with
    | c :: r3 =>
      if c = ':' ∨ c = '-' ∨ c = '–' then
        let ds := (takeDigits (skipWsRun r3)).1
        if ds.isEmpty then none else some (digitsToNat ds)
      else none
    | [] => none

/-- Pattern 2 at one position: `(\d+)\s+KEYWORD(?:\s+issues?)?` (the optional
suffix group never affects the capture). -/
def p2At (kw : List Char) (cs : List Char) : Option Nat :=
  let (ds, r1) := takeDigits cs
  if ds.isEmpty then none
  else
    match r1 with
    | c :: _ =>
      if isWsCh c ∧ (matchCI kw (skipWsRun r1)).isSome then some (digitsToNat ds)
      else none
    | [] => none

/-- Pattern 3 at one position: `KEYWORD\s*[\(\[]\s*(\d+)\s*[\)\]]`. -/
def p3At (kw : List Char) (cs : List Char) : Option Nat :=
  match matchCI kw cs with
  | none => none
  | some r1 =>
    match skipWsRun r1 with
    | b :: r3 =>
      if b = '(' ∨ b = '[' then
        let (ds, r5) := takeDigits (skipWsRun r3)
        if ds.isEmpty then none
        else
          match skipWsRun r5 with
          | e :: _ => if e = ')' ∨ e = ']' then some (digitsToNat ds) else none
          | [] => none
      else none
    | [] => none

/-- The lazy tail of pattern 4, `[^|]*?(\d+)\s*\|`: advance one character at
a time without crossing `|`; at a digit, take the maximal run, skip spaces
and require the closing bar, returning the capture and the rest after it. -/
def p4Inner : List Char → Option (Nat × List Char)
  | [] => none
  | c :: rest =>
    if c = '|' then none
    else if isDigitCh c then
      let (ds, r1) := takeDigits (c :: rest)
      match skipWsRun r1 with
      | '|' :: r3 => some (digitsToNat ds, r3)
      | _ => p4Inner rest
    else p4Inner rest

/-- Pattern 4 at one position: `\|\s*KEYWORD\s*\|[^|]*?(\d+)\s*\|`. -/
def p4At (kw : List Char) (cs : List Char) : Option (Nat × List Char) :=
  match cs with
  | '|' :: r1 =>
    match matchCI kw (skipWsRun r1) with
    | none => none
    | some r3 =>
      match skipWsRun r3 with
      | '|' :: r4 => p4Inner r4
      | _ => none
  | _ => none

/-- All pattern-4 captures in `re.findall` order: leftmost match first,
resuming after each match's end (the source takes the last capture). -/
def p4Scan (kw : List Char) : Nat → List Char → List Nat
  | 0, _ => []
  | _ + 1, [] => []
  | fuel + 1, c :: cs =>
    match p4At kw (c :: cs) with
    | some (v, rest) => v :: p4Scan kw fuel rest
    | none => p4Scan kw fuel cs

/-- Pattern 5 at one position: `KEYWORD[^\d]*?(\d+)(?:\s*$|\s*\n)` with
MULTILINE — the first digit run after the keyword, accepted iff everything
following it up to the next newline (or end of input) is whitespace. -/
def p5At (kw : List Char) (cs : List Char) : Option Nat :=
  match matchCI kw cs with
  | none => none
  | some r1 =>
    let (ds, r3) := takeDigits (r1.dropWhile (fun c => ¬ isDigitCh c))
    if ds.isEmpty then none
    else if (r3.takeWhile (fun c => c ≠ '\n')).all isWsCh then some (digitsToNat ds)
    else none

/-- Pattern 6 at one position: `KEYWORD\s*(\d+(?:\.\d+)?)\s*%`, capturing a
percentage as an exact rational. -/
def p6At (kw : List Char) (cs : List Char) : Option ℚ :=
  match matchCI kw cs with
  | none => none
  | some r1 =>
    let (ds, r3) := takeDigits (skipWsRun r1)
    if ds.isEmpty then none
    else
      let fracRest : List Char × List Char :=
        match r3 with
        | '.' :: rr =>
          let p := takeDigits rr
          if p.1.isEmpty then ([], r3) else (p.1, p.2)
        | _ => ([], r3)
      match skipWsRun fracRest.2 with
      | '%' :: _ =>
        some ((digitsToNat ds : ℚ) +
          (digitsToNat fracRest.1 : ℚ) / ((10 : ℚ) ^ fracRest.1.length))
      | _ => none

/-- The six pattern results for one keyword, in source priority order
(patterns 1–5 capture `matches[0]`, pattern 4 captures `matches[-1]`). -/
def patResults (content kw : String) : List (Option ℚ) :=
  let cs := content.toList
  let k := kw.toList
  [(scanFirst (p1At k) cs).map (fun n => (n : ℚ)),
    (scanFirst (p2At k) cs).map (fun n => (n : ℚ)),
    (scanFirst (p3At k) cs).map (fun n => (n : ℚ)),
    (p4Scan k (cs.length + 1) cs).getLast?.map (fun n => (n : ℚ)),
    (scanFirst (p5At k) cs).map (fun n => (n : ℚ)),
    scanFirst (p6At k) cs]

/-- First defined value of an option list (the `continue`-on-hit cascade). -/
def firstSome {α : Type} : List (Option α) → Option α
  | [] => none
  | some v :: _ => some v
  | none :: rest => firstSome rest

/-- Value mined for one keyword: the first pattern with a match wins, a
keyword with no match is absent. -/
def mineKeyword (content kw : String) : Option ℚ := firstSome (patResults content kw)

/-- Embedding of `_extract_generic_data`: an insertion-ordered mapping from
keyword to mined value, in keyword-list order. -/
def extractGenericData (content : String) (keywords : List String) :
    List (String × ℚ) :=
  keywords.foldl (fun acc kw =>
    match mineKeyword content kw with
    | some v => acc ++ [(kw, v)]
    | none => acc) []

/-- A chart descriptor as built by `_extract_all_chart_data` (the dict with
type/labels/values/title keys). -/
structure ChartData where
  ctype : String
  labels : List String
  values : List ℚ
  title : String
deriving DecidableEq, Repr

/-- The issue-type keyword list. -/
def typeKeywords : List String :=
  ["Improvement", "Bug", "Change Request", "Task", "Feature", "Epic", "Story", "Sub-task"]

/-- The status keyword list. -/
def statusKeywords : List String :=
  ["Open", "In Progress", "Closed", "Reopened", "Resolved", "Done", "To Do", "Blocked",
    "In Review"]

/-- The priority keyword list. -/
def priorityKeywords : List String :=
  ["Critical", "High", "Medium", "Low", "Blocker", "Major", "Minor", "Trivial"]

/-- Build one chart from a mined category when the mapping is non-empty. -/
def chartOf (ctype : String) (title : String) (data : List (String × ℚ)) :
    List ChartData :=
  if data.isEmpty then []
  else [⟨ctype, data.map (fun kv => kv.1), data.map (fun kv => kv.2), title⟩]

/-- Embedding of `_extract_all_chart_data`: mine the three fixed categories
and emit a bar / pie / horizontal-bar chart for each non-empty result. -/
def extractAllChartData (content : String) : List ChartData :=
  chartOf "bar" "Issues by Type" (extractGenericData content typeKeywords) ++
    chartOf "pie" "Issues by Status" (extractGenericData content statusKeywords) ++
    chartOf "bar_horizontal" "Issues by Priority"
      (extractGenericData content priorityKeywords)

/-! ### The structured report parser (`WordService._parse_and_add_content`)

The method walks the lines of the flattened text with three pieces of state
(`current_list`, `in_table`, `table_rows`) and emits document elements into a
Word document.  The emissions are modelled as `ReportNode` values: each
heading/add_table/paragraph call emits one node, and a `_flush_list` of a
non-empty accumulator emits one `listBlock` node carrying the items in order
(the source adds one "List Bullet" paragraph per item; the inline bold/italic
run formatting of paragraphs belongs to the rendering backend and is not
modelled). -/

/-- One reconstructed document element. -/
inductive ReportNode where
  | heading (level : Nat) (text : String)
  | para (line : String)
  | listBlock (items : List String)
  | table (rows : List (List String))
deriving DecidableEq, Repr

/-- Parser state: pending list items, whether a table is open, its rows. -/
structure PState where
  curList : List String
  inTable : Bool
  tableRows : List (List String)
deriving DecidableEq, Repr

/-- `_flush_list`: a non-empty accumulator emits its items; empty emits nothing. -/
def flushListNodes (items : List String) : List ReportNode :=
  if items.isEmpty then [] else [.listBlock items]

/-- `_add_table`: a non-empty row list emits one table node; empty emits nothing. -/
def addTableNodes (rows : List (List String)) : List ReportNode :=
  if rows.isEmpty then [] else [.table rows]

/-- Table-line test: `"|" in line and line.strip().startswith("|")`. -/
def isTableLine (line : String) : Bool :=
  subOccurs ['|'] line.toList && sStartsWith (sTrim line) "|"

/-- Separator-line test, `re.match(r"^\s*\|[\s\-:|]+\|\s*$", line)`: after
stripping, the line starts and ends with `|`, has at least one character
between them, and consists only of whitespace, `-`, `:` and `|`. -/
def isSeparatorLine (line : String) : Bool :=
  let t := (sTrim line).toList
  decide (t.length ≥ 3) && (match t with | c :: _ => c = '|' | [] => false) &&
    (match t.getLast? with | some c => c = '|' | none => false) &&
    t.all (fun c => isWsCh c ∨ c = '-' ∨ c = ':' ∨ c = '|')

/-- Row cells: `[cell.strip() for cell in line.split("|")[1:-1]]`. -/
def tableCells (line : String) : List String :=
  (((splitOnChar '|' line).drop 1).dropLast).map sTrim

/-- Bulleted-item test on the stripped line: `- `, `* ` or `• ` prefix. -/
def isBulletLine (t : String) : Bool :=
  sStartsWith t "- " || sStartsWith t "* " || sStartsWith t "• "

/-- Numbered-item test on the stripped line, `re.match(r"^\d+\.\s", t)`. -/
def numberedGate (t : String) : Bool :=
  let (ds, r1) := takeDigits t.toList
  !ds.isEmpty && (match r1 with | '.' :: c :: _ => isWsCh c | _ => false)

/-- Numbered-item text, group 1 of `re.match(r"^\d+\.\s(.+)", t)`. -/
def numberedItem (t : String) : Option String :=
  let (ds, r1) := takeDigits t.toList
  if ds.isEmpty then none
  else
    match r1 with
    | '.' :: c :: rest =>
      if isWsCh c ∧ ¬ rest.isEmpty then some (String.mk rest) else none
    | _ => none

/-- One iteration of the line loop of `_parse_and_add_content`: returns the
successor state and the nodes emitted while processing this line. -/
def lineStep (st : PState) (line : String) : PState × List ReportNode :=
  if isTableLine line then
    let entered : PState × List ReportNode :=
      if !st.inTable then (⟨[], true, []⟩, flushListNodes st.curList)
      else (st, [])
    if isSeparatorLine line then entered
    else
      let cells := tableCells line
      if cells.isEmpty then entered
      else (⟨entered.1.curList, true, entered.1.tableRows ++ [cells]⟩, entered.2)
  else
    let exited : PState × List ReportNode :=
      if st.inTable then (⟨st.curList, false, []⟩, addTableNodes st.tableRows)
      else (st, [])
    let st1 := exited.1
    let out1 := exited.2
    if sStartsWith line "### " then
      (⟨[], st1.inTable, st1.tableRows⟩,
        out1 ++ flushListNodes st1.curList ++ [.heading 3 (sTrim (sDrop line 4))])
    else if sStartsWith line "## " then
      (⟨[], st1.inTable, st1.tableRows⟩,
        out1 ++ flushListNodes st1.curList ++ [.heading 2 (sTrim (sDrop line 3))])
    else if sStartsWith line "# " then
      (⟨[], st1.inTable, st1.tableRows⟩,
        out1 ++ flushListNodes st1.curList ++ [.heading 1 (sTrim (sDrop line 2))])
    else if isBulletLine (sTrim line) then
      (⟨st1.curList ++ [sDrop (sTrim line) 2], st1.inTable, st1.tableRows⟩, out1)
    else if numberedGate (sTrim line) then
      match numberedItem (sTrim line) with
      | some item => (⟨st1.curList ++ [item], st1.inTable, st1.tableRows⟩, out1)
      | none => (st1, out1)
    else if sTrim line ≠ "" then
      (⟨[], st1.inTable, st1.tableRows⟩,
        out1 ++ flushListNodes st1.curList ++ [.para line])
    else if sTrim line = "" ∧ ¬ st1.curList.isEmpty then
      (⟨[], st1.inTable, st1.tableRows⟩, out1 ++ flushListNodes st1.curList)
    else (st1, out1)

/-- The full line loop plus the end-of-input flushes: a still-open non-empty
table, then any pending list. -/
def processLines (st : PState) (nodes : List ReportNode) :
    List String → List ReportNode
  | [] =>
    nodes ++
      (if st.inTable ∧ ¬ st.tableRows.isEmpty then [ReportNode.table st.tableRows] else []) ++
      flushListNodes st.curList
  | line :: rest =>
    let step := lineStep st line
    processLines step.1 (nodes ++ step.2) rest

/-- Embedding of `WordService._parse_and_add_content` as the sequence of
emitted document nodes. -/
def parse_and_add_content (content : String) : List ReportNode :=
  if content = "" then [.para "No content available."]
  else processLines ⟨[], false, []⟩ [] (splitOnChar '\n' content)

/-! ### Well-shaped values

`extract_readable_content` is *not* total: `_extract_component` accesses
fields of a component's `props` (and of `tableHeader`, `chartData`, `items`,
`series`, ...) assuming they have the expected Python types, and an
unexpected type raises AttributeError/TypeError through the caller (only
`json.JSONDecodeError` is caught).  The predicate below is a sufficient
shape condition under which the reduction returns a string: every dict in
the tree must have a dict-typed `props` (when present) whose fields used by
the relevant branch have workable types.  `extractAllF_ok` proves that a
well-shaped value always reduces to `.ok`. -/

/-- A value that is a string or falsy: appending it raw to `parts` can never
make the final `"\n".join` raise. -/
def strOrFalsy : JVal → Bool
  | .str _ => true
  | v => !pyTruthy v

/-- Values Python can iterate: lists, strings, dicts. -/
def iterableB : JVal → Bool
  | .arr _ => true
  | .str _ => true
  | .obj _ => true
  | _ => false

/-- Iterable or falsy: safe wherever iteration is guarded by a truthiness
test (`if labels and values: zip(...)`). -/
def iterOrFalsy (v : JVal) : Bool := iterableB v || !pyTruthy v

/-- Shape demands on the dict-shaped chart data (`chartData.data`). -/
def chartDataDemands (data : JVal) : Bool :=
  match data with
  | .obj dk =>
    let labels := jlookupD dk "labels" (.arr [])
    let series := jlookupD dk "series" (.arr [])
    iterableB series && iterOrFalsy labels &&
      (match series with
        | .arr ss => ss.all (fun s =>
            match s with
            | .obj sk => iterOrFalsy (jlookupD sk "values" (.arr []))
            | _ => true)
        | _ => true) &&
      (if pyTruthy series then true
        else iterOrFalsy (jlookupD dk "values" (.arr [])) &&
          iterOrFalsy (jlookupD dk "data" (.arr [])))
  | _ => true

/-- Per-kind shape demands on the props dict, exactly the conditions under
which the corresponding branch of `_extract_component` cannot raise. -/
def ctDemands (ct : String) (pkvs : List (String × JVal)) : Bool :=
  if ct = "header" ∨ ct = "inlineheader" then
    strOrFalsy (jlookupD pkvs "subtitle" (.str "")) &&
      strOrFalsy (jlookupD pkvs "description" (.str ""))
  else if ct = "textcontent" ∨ ct = "text" ∨ ct = "paragraph" then
    strOrFalsy (jlookupD pkvs "textMarkdown" (.str "")) &&
      strOrFalsy (jlookupD pkvs "text" (.str "")) &&
      strOrFalsy (jlookupD pkvs "content" (.str ""))
  else if ct = "list" then
    iterableB (jlookupD pkvs "items" (.arr [])) &&
      strOrFalsy (jlookupD pkvs "description" (.str ""))
  else if ct = "table" then
    match jlookupD pkvs "tableHeader" (.obj []), jlookupD pkvs "tableBody" (.obj []) with
    | .obj th, .obj tb =>
      iterOrFalsy (jlookupD th "rows" (.arr [])) &&
        iterableB (jlookupD tb "rows" (.arr []))
    | _, _ => false
  else if chartKindB ct then
    match jlookupD pkvs "chartData" (.obj []) with
    | .obj cd => chartDataDemands (jlookupD cd "data" (.obj []))
    | _ => false
  else if ct = "sectionblock" then
    let sections := jlookupD pkvs "sections" (.arr [])
    iterableB sections &&
      (match sections with
        | .arr ss => ss.all (fun s =>
            match s with
            | .obj sk => iterableB (jlookupD sk "content" (.arr []))
            | _ => true)
        | _ => true)
  else if ct = "layout" then
    match jlookupD pkvs "children" (.obj []) with
    | .obj ck => iterableB (jlookupD ck "rows" (.arr []))
    | _ => true
  else if ct = "minicardblock" then
    iterableB (jlookupD pkvs "children" (.arr []))
  else true

/-- Local shape condition on one dict: a dict-valued discriminant defers to
the wrapped dict; otherwise `props` must be a dict (when present) satisfying
the demands of the branch its lower-cased discriminant selects. -/
def localOK (kvs : List (String × JVal)) : Bool :=
  match jlookupD kvs "component" (.str "") with
  | .obj _ => true
  | ctv =>
    let ct := match ctv with | .str s => sToLower s | _ => ""
    match jlookupD kvs "props" (.obj []) with
    | .obj pkvs => ctDemands ct pkvs
    | _ => false

mutual

/-- Well-shaped value: every dict anywhere in the tree satisfies `localOK`. -/
def wfVal : JVal → Bool
  | .arr xs => wfList xs
  | .obj kvs => localOK kvs && wfKVList kvs
  | _ => true

/-- All list elements well-shaped. -/
def wfList : List JVal → Bool
  | [] => true
  | x :: xs => wfVal x && wfList xs

/-- All dict values well-shaped. -/
def wfKVList : List (String × JVal) → Bool
  | [] => true
  | (_, v) :: kvs => wfVal v && wfKVList kvs

end

/-- The hypothesis shape of the C1 (amended) totality theorem: the input is
well-shaped when its working string either fails to parse (extraction then
falls back to the decoded text) or parses to a well-shaped value. -/
def wfInput (response : String) : Bool :=
  if response = "" then true
  else
    match parseStage (workingStr (htmlUnescape response)) with
    | some v => wfVal v
    | none => true

/-- Invariant on the parts accumulator: every truthy part is a string, so the
final `"\n".join(filter(None, parts))` cannot raise. -/
def PartsOk (ps : List JVal) : Prop :=
  ∀ p ∈ ps, pyTruthy p = true → ∃ s, p = JVal.str s

/-- The recursion argument succeeds on every well-shaped dict within the size
bound (instantiated with the induction hypothesis of `extractComponentF_ok`). -/
def RecOk (recur : List (String × JVal) → Except PyErr String) (B : Nat) : Prop :=
  ∀ kvs', wfVal (JVal.obj kvs') = true → jsize (JVal.obj kvs') ≤ B →
    ∃ s, recur kvs' = Except.ok s

/-! ## Theorems -/

/-- Bind of a successful Except computation reduces to the continuation. -/
theorem except_bind_ok {ε α β : Type} (a : α) (f : α → Except ε β) :
    (Except.ok a >>= f : Except ε β) = f a := rfl

/-- A value found by dict lookup is no larger than the summed value size. -/
theorem jlookup_size_le {kvs : List (String × JVal)} {k : String} {v : JVal}
    (h : jlookup kvs k = some v) : jsize v ≤ jsizeKV kvs := by
  induction kvs with
  | nil => simp [jlookup] at h
  | cons kv rest ih =>
    obtain ⟨k0, v0⟩ := kv
    by_cases hk : k0 = k
    · simp only [jlookup, if_pos hk, Option.some.injEq] at h
      subst h
      simp only [jsizeKV]
      omega
    · simp only [jlookup, if_neg hk] at h
      have h2 := ih h
      simp only [jsizeKV]
      omega

/-- A list element is no larger than the summed element size. -/
theorem mem_size_le {xs : List JVal} {x : JVal} (h : x ∈ xs) : jsize x ≤ jsizeL xs := by
  induction xs with
  | nil => simp at h
  | cons y ys ih =>
    rcases List.mem_cons.mp h with h1 | h1
    · subst h1
      simp only [jsizeL]
      omega
    · have h2 := ih h1
      simp only [jsizeL]
      omega

/-- Every value is at least one node. -/
theorem jsize_pos (v : JVal) : 1 ≤ jsize v := by
  cases v <;> simp only [jsize] <;> omega

/-- Dict values of a well-shaped dict are well-shaped. -/
theorem wfKVList_lookup {kvs : List (String × JVal)} {k : String} {v : JVal}
    (hwf : wfKVList kvs = true) (h : jlookup kvs k = some v) : wfVal v = true := by
  induction kvs with
  | nil => simp [jlookup] at h
  | cons kv rest ih =>
    obtain ⟨k0, v0⟩ := kv
    simp only [wfKVList, Bool.and_eq_true] at hwf
    by_cases hk : k0 = k
    · simp only [jlookup, if_pos hk, Option.some.injEq] at h
      subst h
      exact hwf.1
    · simp only [jlookup, if_neg hk] at h
      exact ih hwf.2 h

/-- Elements of a well-shaped list are well-shaped. -/
theorem wfList_mem {xs : List JVal} {x : JVal} (hwf : wfList xs = true) (h : x ∈ xs) :
    wfVal x = true := by
  induction xs with
  | nil => simp at h
  | cons y ys ih =>
    simp only [wfList, Bool.and_eq_true] at hwf
    rcases List.mem_cons.mp h with h1 | h1
    · subst h1
      exact hwf.1
    · exact ih hwf.2 h1

/-- Unfolding a well-shaped dict into its local condition and value condition. -/
theorem wfVal_obj {kvs : List (String × JVal)} (h : wfVal (JVal.obj kvs) = true) :
    localOK kvs = true ∧ wfKVList kvs = true := by
  simpa [wfVal, Bool.and_eq_true] using h

/-- Effectful map succeeds when the function succeeds on every element, and
the postcondition transfers to the results. -/
theorem emapM_ok {α β : Type} {xs : List α} {f : α → Except PyErr β} {P : β → Prop}
    (h : ∀ x ∈ xs, ∃ y, f x = .ok y ∧ P y) :
    ∃ ys, emapM xs f = .ok ys ∧ ∀ y ∈ ys, P y := by
  induction xs with
  | nil => exact ⟨[], rfl, by simp⟩
  | cons x xs ih =>
    obtain ⟨y, hy, hPy⟩ := h x (by simp)
    obtain ⟨ys, hys, hPys⟩ := ih (fun a ha => h a (by simp [ha]))
    refine ⟨y :: ys, ?_, ?_⟩
    · simp only [emapM, hy, except_bind_ok, hys]
    · intro z hz
      rcases List.mem_cons.mp hz with h1 | h1
      · subst h1
        exact hPy
      · exact hPys _ h1

/-- Union of a string with any falsy value stays a string-or-falsy. -/
theorem strOrFalsy_pyOr {a b : JVal} (ha : strOrFalsy a = true) (hb : strOrFalsy b = true) :
    strOrFalsy (pyOr a b) = true := by
  unfold pyOr
  split <;> assumption

/-- A truthy string-or-falsy value is a string. -/
theorem strOrFalsy_truthy_str {v : JVal} (h : strOrFalsy v = true) (ht : pyTruthy v = true) :
    ∃ s, v = JVal.str s := by
  cases v <;> first
    | exact ⟨_, rfl⟩
    | simp_all [strOrFalsy]

/-- A truthy iterable-or-falsy value is iterable. -/
theorem iterOrFalsy_iterable {v : JVal} (h : iterOrFalsy v = true) (ht : pyTruthy v = true) :
    iterableB v = true := by
  simp only [iterOrFalsy, Bool.or_eq_true] at h
  rcases h with h | h
  · exact h
  · rw [Bool.not_eq_true'] at h
    rw [h] at ht
    exact absurd ht (by simp)

/-- Union of two iterable-or-falsy values stays iterable-or-falsy. -/
theorem iterOrFalsy_pyOr {a b : JVal} (ha : iterOrFalsy a = true) (hb : iterOrFalsy b = true) :
    iterOrFalsy (pyOr a b) = true := by
  unfold pyOr
  split <;> assumption

/-- Iterables can be iterated. -/
theorem pyIter_ok {v : JVal} (h : iterableB v = true) : ∃ xs, pyIter v = .ok xs := by
  cases v <;> first
    | exact ⟨_, rfl⟩
    | simp_all [iterableB]

/-- Dict-shaped elements produced by iteration come from a list value
(iterating a string or a dict yields only strings). -/
theorem pyIter_obj_elem {v : JVal} {xs : List JVal} {kvs' : List (String × JVal)}
    (h : pyIter v = .ok xs) (hm : JVal.obj kvs' ∈ xs) :
    ∃ l, v = JVal.arr l ∧ JVal.obj kvs' ∈ l := by
  cases v with
  | arr l =>
    simp only [pyIter, Except.ok.injEq] at h
    subst h
    exact ⟨l, rfl, hm⟩
  | str s =>
    simp only [pyIter, Except.ok.injEq] at h
    subst h
    simp at hm
  | obj kvs =>
    simp only [pyIter, Except.ok.injEq] at h
    subst h
    simp at hm
  | null => simp [pyIter] at h
  | bool b => simp [pyIter] at h
  | num n => simp [pyIter] at h
  | flt l => simp [pyIter] at h

/-- The empty accumulator is fine. -/
theorem partsOk_nil : PartsOk [] := by
  intro p hp
  simp at hp

/-- Concatenation preserves the accumulator invariant. -/
theorem partsOk_append {a b : List JVal} (ha : PartsOk a) (hb : PartsOk b) :
    PartsOk (a ++ b) := by
  intro p hp ht
  rcases List.mem_append.mp hp with h1 | h1
  · exact ha p h1 ht
  · exact hb p h1 ht

/-- A list of explicit strings satisfies the invariant. -/
theorem partsOk_of_strs {ps : List JVal} (h : ∀ p ∈ ps, ∃ s, p = JVal.str s) :
    PartsOk ps := fun p hp _ => h p hp

/-- A conditionally-appended raw string-or-falsy value satisfies the invariant. -/
theorem partsOk_if_strOrFalsy {v : JVal} (h : strOrFalsy v = true) :
    PartsOk (if pyTruthy v then [v] else []) := by
  split
  · intro p hp ht
    simp only [List.mem_singleton] at hp
    subst hp
    exact strOrFalsy_truthy_str h ht
  · exact partsOk_nil

/-- The header branch succeeds on a dict props whose subtitle and description
are strings or falsy, and keeps the accumulator invariant. -/
theorem headerParts_ok {pkvs : List (String × JVal)}
    (h1 : strOrFalsy (jlookupD pkvs "subtitle" (.str "")) = true)
    (h2 : strOrFalsy (jlookupD pkvs "description" (.str "")) = true) :
    ∃ ps, headerParts (JVal.obj pkvs) = .ok ps ∧ PartsOk ps := by
  simp only [headerParts, pyGet, except_bind_ok]
  refine ⟨_, rfl, partsOk_append ?_ (partsOk_if_strOrFalsy (strOrFalsy_pyOr h1 h2))⟩
  split
  · exact partsOk_of_strs (by simp)
  · exact partsOk_nil

/-- Reduction of `pure` in the exception monad. -/
theorem except_pure {ε α : Type} (a : α) : (pure a : Except ε α) = .ok a := rfl

/-- A conditional singleton string list satisfies the invariant. -/
theorem partsOk_if_str {c : Prop} [Decidable c] {s : String} :
    PartsOk (if c then [JVal.str s] else []) := by
  split
  · exact partsOk_of_strs (by simp)
  · exact partsOk_nil

/-- Values of a well-shaped dict by membership. -/
theorem wfKVList_mem {kvs : List (String × JVal)} {kv : String × JVal}
    (hwf : wfKVList kvs = true) (h : kv ∈ kvs) : wfVal kv.2 = true := by
  induction kvs with
  | nil => simp at h
  | cons kv0 rest ih =>
    obtain ⟨k0, v0⟩ := kv0
    simp only [wfKVList, Bool.and_eq_true] at hwf
    rcases List.mem_cons.mp h with h1 | h1
    · subst h1
      exact hwf.1
    · exact ih hwf.2 h1

/-- Sizes of dict entries by membership. -/
theorem jsizeKV_mem {kvs : List (String × JVal)} {kv : String × JVal} (h : kv ∈ kvs) :
    jsize kv.2 ≤ jsizeKV kvs := by
  induction kvs with
  | nil => simp at h
  | cons kv0 rest ih =>
    obtain ⟨k0, v0⟩ := kv0
    rcases List.mem_cons.mp h with h1 | h1
    · subst h1
      simp only [jsizeKV]
      omega
    · have := ih h1
      simp only [jsizeKV]
      omega

/-- Dropping the node itself from an object size bound. -/
theorem jsizeKV_le_of_obj_le {kvs : List (String × JVal)} {B : Nat}
    (h : jsize (JVal.obj kvs) ≤ B) : jsizeKV kvs ≤ B := by
  simp only [jsize] at h
  omega

/-- Dropping the node itself from an array size bound. -/
theorem jsizeL_le_of_arr_le {xs : List JVal} {B : Nat}
    (h : jsize (JVal.arr xs) ≤ B) : jsizeL xs ≤ B := by
  simp only [jsize] at h
  omega

/-- Elements of a well-shaped array value. -/
theorem wfVal_arr {xs : List JVal} (h : wfVal (JVal.arr xs) = true) : wfList xs = true := by
  simpa [wfVal] using h

/-- The text branch succeeds when the three candidate fields are strings or
falsy (the selected one is appended raw). -/
theorem textParts_ok {pkvs : List (String × JVal)}
    (h1 : strOrFalsy (jlookupD pkvs "textMarkdown" (.str "")) = true)
    (h2 : strOrFalsy (jlookupD pkvs "text" (.str "")) = true)
    (h3 : strOrFalsy (jlookupD pkvs "content" (.str "")) = true) :
    ∃ ps, textParts (JVal.obj pkvs) = .ok ps ∧ PartsOk ps := by
  simp only [textParts, pyGet, except_bind_ok]
  exact ⟨_, rfl, partsOk_if_strOrFalsy (strOrFalsy_pyOr h1 (strOrFalsy_pyOr h2 h3))⟩

/-- The card branch always succeeds on a dict props. -/
theorem cardParts_ok {pkvs : List (String × JVal)} :
    ∃ ps, cardParts (JVal.obj pkvs) = .ok ps ∧ PartsOk ps := by
  simp only [cardParts, pyGet, except_bind_ok]
  refine ⟨_, rfl, ?_⟩
  split
  · split
    · exact partsOk_of_strs (by simp)
    · exact partsOk_of_strs (by simp)
  · exact partsOk_nil

/-- The dataTile branch succeeds on a dict props whose dict-shaped `lhs` (if
any) reduces successfully. -/
theorem dataTileParts_ok {recur : List (String × JVal) → Except PyErr String}
    {B : Nat} {pkvs : List (String × JVal)}
    (hrec : RecOk recur B) (hwfp : wfKVList pkvs = true) (hszp : jsizeKV pkvs ≤ B) :
    ∃ ps, dataTileParts recur (JVal.obj pkvs) = .ok ps ∧ PartsOk ps := by
  simp only [dataTileParts, pyGet, except_bind_ok]
  cases hlhs : jlookup pkvs "lhs" with
  | none =>
    simp only [jlookupD, hlhs, Option.getD_none]
    exact ⟨_, rfl, partsOk_if_str⟩
  | some lhs =>
    simp only [jlookupD, hlhs, Option.getD_some]
    cases lhs with
    | obj lk =>
      have hwl : wfVal (JVal.obj lk) = true := wfKVList_lookup hwfp hlhs
      have hsl : jsize (JVal.obj lk) ≤ B := le_trans (jlookup_size_le hlhs) hszp
      obtain ⟨s, hs⟩ := hrec lk hwl hsl
      simp only [hs, except_bind_ok]
      exact ⟨_, rfl, partsOk_append partsOk_if_str (partsOk_of_strs (by simp))⟩
    | null => exact ⟨_, rfl, partsOk_if_str⟩
    | bool b => exact ⟨_, rfl, partsOk_if_str⟩
    | num n => exact ⟨_, rfl, partsOk_if_str⟩
    | flt l => exact ⟨_, rfl, partsOk_if_str⟩
    | str s => exact ⟨_, rfl, partsOk_if_str⟩
    | arr xs => exact ⟨_, rfl, partsOk_if_str⟩

/-- Each list item renders to bullet strings only. -/
theorem listItemPart_strs {x : JVal} {p : JVal} (hp : p ∈ listItemPart x) :
    ∃ s, p = JVal.str s := by
  cases x with
  | obj ik =>
    simp only [listItemPart] at hp
    split at hp
    · split at hp
      · simp only [List.mem_singleton] at hp
        exact ⟨_, hp⟩
      · split at hp
        · simp only [List.mem_singleton] at hp
          exact ⟨_, hp⟩
        · simp only [List.mem_singleton] at hp
          exact ⟨_, hp⟩
    · simp at hp
  | str s =>
    simp only [listItemPart, List.mem_singleton] at hp
    exact ⟨_, hp⟩
  | null => simp [listItemPart] at hp
  | bool b => simp [listItemPart] at hp
  | num n => simp [listItemPart] at hp
  | flt l => simp [listItemPart] at hp
  | arr xs => simp [listItemPart] at hp

/-- The list branch succeeds when items is iterable and description is a
string or falsy. -/
theorem listParts_ok {pkvs : List (String × JVal)}
    (hit : iterableB (jlookupD pkvs "items" (.arr [])) = true)
    (hdesc : strOrFalsy (jlookupD pkvs "description" (.str "")) = true) :
    ∃ ps, listParts (JVal.obj pkvs) = .ok ps ∧ PartsOk ps := by
  simp only [listParts, pyGet, except_bind_ok]
  obtain ⟨xs, hxs⟩ := pyIter_ok hit
  simp only [hxs, except_bind_ok]
  refine ⟨_, rfl, partsOk_append (partsOk_append partsOk_if_str
    (partsOk_if_strOrFalsy hdesc)) (partsOk_of_strs ?_)⟩
  intro p hp
  simp only [List.mem_flatten, List.mem_map] at hp
  obtain ⟨l, ⟨x, _, hxl⟩, hpl⟩ := hp
  subst hxl
  exact listItemPart_strs hpl

/-- A flat list of string-only part lists satisfies the invariant. -/
theorem partsOk_flatten_strs {ls : List (List JVal)}
    (h : ∀ l ∈ ls, ∀ p ∈ l, ∃ t, p = JVal.str t) : PartsOk ls.flatten := by
  apply partsOk_of_strs
  intro p hp
  simp only [List.mem_flatten] at hp
  obtain ⟨l, hl, hpl⟩ := hp
  exact h l hl p hpl

/-- Each table body row renders to pipe strings only. -/
theorem tableRowPart_strs {x p : JVal} (hp : p ∈ tableRowPart x) : ∃ s, p = JVal.str s := by
  cases x with
  | obj rk =>
    revert hp
    simp only [tableRowPart]
    cases jlookupD rk "children" (.arr []) with
    | arr cs =>
      intro hp
      simp only [List.mem_singleton] at hp
      exact ⟨_, hp⟩
    | null => intro hp; simp at hp
    | bool b => intro hp; simp at hp
    | num n => intro hp; simp at hp
    | flt l => intro hp; simp at hp
    | str s => intro hp; simp at hp
    | obj kvs => intro hp; simp at hp
  | arr cs =>
    simp only [tableRowPart, List.mem_singleton] at hp
    exact ⟨_, hp⟩
  | null => simp [tableRowPart] at hp
  | bool b => simp [tableRowPart] at hp
  | num n => simp [tableRowPart] at hp
  | flt l => simp [tableRowPart] at hp
  | str s => simp [tableRowPart] at hp

/-- The table branch succeeds when tableHeader and tableBody are dicts, the
header rows are iterable-or-falsy, and the body rows are iterable. -/
theorem tableParts_ok {pkvs th tb : List (String × JVal)}
    (hth : jlookupD pkvs "tableHeader" (.obj []) = JVal.obj th)
    (htb : jlookupD pkvs "tableBody" (.obj []) = JVal.obj tb)
    (hhr : iterOrFalsy (jlookupD th "rows" (.arr [])) = true)
    (hbr : iterableB (jlookupD tb "rows" (.arr [])) = true) :
    ∃ ps, tableParts (JVal.obj pkvs) = .ok ps ∧ PartsOk ps := by
  simp only [tableParts, pyGet, except_bind_ok, hth, htb]
  obtain ⟨rows, hr2⟩ := pyIter_ok hbr
  by_cases hpt : pyTruthy (jlookupD th "rows" (.arr [])) = true
  · obtain ⟨cells, hc⟩ := pyIter_ok (iterOrFalsy_iterable hhr hpt)
    simp only [if_pos hpt, hc, except_bind_ok, except_pure, hr2]
    refine ⟨_, rfl, partsOk_append ?_ (partsOk_flatten_strs ?_)⟩
    · split
      · exact partsOk_nil
      · exact partsOk_of_strs (by simp)
    · intro l hl p hpl
      simp only [List.mem_map] at hl
      obtain ⟨x, _, hxl⟩ := hl
      subst hxl
      exact tableRowPart_strs hpl
  · simp only [if_neg hpt, except_bind_ok, except_pure, hr2]
    refine ⟨_, rfl, partsOk_append partsOk_nil (partsOk_flatten_strs ?_)⟩
    intro l hl p hpl
    simp only [List.mem_map] at hl
    obtain ⟨x, _, hxl⟩ := hl
    subst hxl
    exact tableRowPart_strs hpl

/-- One chart series entry succeeds when labels are iterable-or-falsy and the
entry's values (for a dict entry) are too; only strings are produced. -/
theorem chartSeriesPart_ok {labels s : JVal}
    (hlab : iterOrFalsy labels = true)
    (hval : ∀ sk, s = JVal.obj sk → iterOrFalsy (jlookupD sk "values" (.arr [])) = true) :
    ∃ ps, chartSeriesPart labels s = .ok ps ∧ ∀ p ∈ ps, ∃ t, p = JVal.str t := by
  cases s with
  | obj sk =>
    simp only [chartSeriesPart]
    by_cases hc : (pyTruthy labels && pyTruthy (jlookupD sk "values" (.arr []))) = true
    · rw [if_pos hc]
      simp only [Bool.and_eq_true] at hc
      obtain ⟨ls, hls⟩ := pyIter_ok (iterOrFalsy_iterable hlab hc.1)
      obtain ⟨vs, hvs⟩ := pyIter_ok (iterOrFalsy_iterable (hval sk rfl) hc.2)
      simp only [hls, hvs, except_bind_ok]
      refine ⟨_, rfl, ?_⟩
      intro p hp
      simp only [List.mem_map] at hp
      obtain ⟨lv, _, hlv⟩ := hp
      exact ⟨_, hlv.symm⟩
    · rw [if_neg hc]
      exact ⟨[], rfl, by simp⟩
  | null => exact ⟨[], rfl, by simp⟩
  | bool b => exact ⟨[], rfl, by simp⟩
  | num n => exact ⟨[], rfl, by simp⟩
  | flt l => exact ⟨[], rfl, by simp⟩
  | str t => exact ⟨[], rfl, by simp⟩
  | arr xs => exact ⟨[], rfl, by simp⟩

/-- Each flat chart record renders to strings only. -/
theorem chartFlatItemPart_strs {x p : JVal} (hp : p ∈ chartFlatItemPart x) :
    ∃ s, p = JVal.str s := by
  cases x with
  | obj ik =>
    revert hp
    simp only [chartFlatItemPart]
    split
    · cases jlookupD ik "value" (.str "") with
      | null => intro hp; simp at hp
      | bool b => intro hp; simp only [List.mem_singleton] at hp; exact ⟨_, hp⟩
      | num n => intro hp; simp only [List.mem_singleton] at hp; exact ⟨_, hp⟩
      | flt l => intro hp; simp only [List.mem_singleton] at hp; exact ⟨_, hp⟩
      | str s => intro hp; simp only [List.mem_singleton] at hp; exact ⟨_, hp⟩
      | arr xs => intro hp; simp only [List.mem_singleton] at hp; exact ⟨_, hp⟩
      | obj kvs => intro hp; simp only [List.mem_singleton] at hp; exact ⟨_, hp⟩
    · intro hp; simp at hp
  | null => simp [chartFlatItemPart] at hp
  | bool b => simp [chartFlatItemPart] at hp
  | num n => simp [chartFlatItemPart] at hp
  | flt l => simp [chartFlatItemPart] at hp
  | str s => simp [chartFlatItemPart] at hp
  | arr xs => simp [chartFlatItemPart] at hp

/-- The chart branch succeeds when chartData is a dict and its data satisfies
the chart shape demands. -/
theorem chartParts_ok {pkvs cd : List (String × JVal)}
    (hcd : jlookupD pkvs "chartData" (.obj []) = JVal.obj cd)
    (hdem : chartDataDemands (jlookupD cd "data" (.obj [])) = true) :
    ∃ ps, chartParts (JVal.obj pkvs) = .ok ps ∧ PartsOk ps := by
  simp only [chartParts, pyGet, except_bind_ok, hcd]
  revert hdem
  cases hdata : jlookupD cd "data" (.obj []) with
  | obj dk =>
    intro hdem
    simp only [chartDataDemands, Bool.and_eq_true] at hdem
    obtain ⟨⟨⟨hser, hlab⟩, hall⟩, hns⟩ := hdem
    obtain ⟨selems, hse⟩ := pyIter_ok hser
    simp only [hse, except_bind_ok]
    have hmap : ∀ s ∈ selems,
        ∃ ys, chartSeriesPart (jlookupD dk "labels" (.arr [])) s = .ok ys ∧
          ∀ p ∈ ys, ∃ t, p = JVal.str t := by
      intro s hs
      apply chartSeriesPart_ok hlab
      intro sk hsk
      subst hsk
      obtain ⟨l, hl, hm⟩ := pyIter_obj_elem hse hs
      rw [hl] at hall
      have hall2 := List.all_eq_true.mp (by simpa using hall) _ hm
      simpa using hall2
    obtain ⟨sparts, hsp, hspP⟩ := emapM_ok hmap
    simp only [hsp, except_bind_ok]
    by_cases hts : pyTruthy (jlookupD dk "series" (.arr [])) = true
    · rw [if_pos hts]
      simp only [except_pure, except_bind_ok]
      refine ⟨_, rfl, partsOk_append (partsOk_append partsOk_if_str
        (partsOk_flatten_strs hspP)) partsOk_nil⟩
    · rw [if_neg hts]
      rw [if_neg hts] at hns
      simp only [Bool.and_eq_true] at hns
      by_cases hc2 : (pyTruthy (jlookupD dk "labels" (.arr [])) &&
          pyTruthy (pyOr (jlookupD dk "values" (.arr [])) (jlookupD dk "data" (.arr [])))) = true
      · rw [if_pos hc2]
        simp only [Bool.and_eq_true] at hc2
        obtain ⟨ls, hls⟩ := pyIter_ok (iterOrFalsy_iterable hlab hc2.1)
        obtain ⟨vs, hvs⟩ := pyIter_ok
          (iterOrFalsy_iterable (iterOrFalsy_pyOr hns.1 hns.2) hc2.2)
        simp only [hls, hvs, except_bind_ok, except_pure]
        refine ⟨_, rfl, partsOk_append (partsOk_append partsOk_if_str
          (partsOk_flatten_strs hspP)) (partsOk_of_strs ?_)⟩
        intro p hp
        simp only [List.mem_map] at hp
        obtain ⟨lv, _, hlv⟩ := hp
        exact ⟨_, hlv.symm⟩
      · rw [if_neg hc2]
        simp only [except_pure, except_bind_ok]
        refine ⟨_, rfl, partsOk_append (partsOk_append partsOk_if_str
          (partsOk_flatten_strs hspP)) partsOk_nil⟩
  | arr items =>
    intro _
    refine ⟨_, rfl, partsOk_append partsOk_if_str (partsOk_flatten_strs ?_)⟩
    intro l hl p hpl
    simp only [List.mem_map] at hl
    obtain ⟨x, _, hxl⟩ := hl
    subst hxl
    exact chartFlatItemPart_strs hpl
  | null => intro _; exact ⟨_, rfl, partsOk_if_str⟩
  | bool b => intro _; exact ⟨_, rfl, partsOk_if_str⟩
  | num n => intro _; exact ⟨_, rfl, partsOk_if_str⟩
  | flt l => intro _; exact ⟨_, rfl, partsOk_if_str⟩
  | str s => intro _; exact ⟨_, rfl, partsOk_if_str⟩

/-- Lookup defaults when the key is absent. -/
theorem jlookupD_none {kvs : List (String × JVal)} {k : String} {d : JVal}
    (h : jlookup kvs k = none) : jlookupD kvs k d = d := by
  rw [jlookupD, h]
  rfl

/-- Lookup returns the stored value when the key is present. -/
theorem jlookupD_some {kvs : List (String × JVal)} {k : String} {d v : JVal}
    (h : jlookup kvs k = some v) : jlookupD kvs k d = v := by
  rw [jlookupD, h]
  rfl

/-- A present key has a stored value. -/
theorem hasKey_some {kvs : List (String × JVal)} {k : String}
    (h : hasKey kvs k = true) : ∃ v, jlookup kvs k = some v := by
  unfold hasKey at h
  cases h2 : jlookup kvs k with
  | none => rw [h2] at h; simp at h
  | some v => exact ⟨v, rfl⟩

/-- Membership in a conditional singleton string list. -/
theorem mem_if_str {c : Prop} [Decidable c] {s : String} {p : JVal}
    (hp : p ∈ (if c then [JVal.str s] else [])) : ∃ t, p = JVal.str t := by
  revert hp
  split <;> intro hp
  · simp only [List.mem_singleton] at hp
    exact ⟨_, hp⟩
  · simp at hp

/-- One child-loop entry succeeds when dict children are well-shaped and
within the recursion bound; only strings are produced. -/
theorem childCompPart_ok {recur : List (String × JVal) → Except PyErr String}
    {B : Nat} {child : JVal}
    (hrec : RecOk recur B)
    (hobj : ∀ ck, child = JVal.obj ck →
      wfVal (JVal.obj ck) = true ∧ jsize (JVal.obj ck) ≤ B) :
    ∃ zs, childCompPart recur child = .ok zs ∧ ∀ p ∈ zs, ∃ t, p = JVal.str t := by
  cases child with
  | obj ck =>
    obtain ⟨hw, hs⟩ := hobj ck rfl
    obtain ⟨s, hsr⟩ := hrec ck hw hs
    simp only [childCompPart, hsr, except_bind_ok]
    exact ⟨_, rfl, by simp⟩
  | null => exact ⟨_, rfl, by simp⟩
  | bool b => exact ⟨_, rfl, by simp⟩
  | num n => exact ⟨_, rfl, by simp⟩
  | flt l => exact ⟨_, rfl, by simp⟩
  | str s => exact ⟨_, rfl, by simp⟩
  | arr xs => exact ⟨_, rfl, by simp⟩

/-- The sectionBlock branch succeeds when sections is iterable and each dict
section has iterable content, with the recursion bound covering the props. -/
theorem sectionBlockParts_ok {recur : List (String × JVal) → Except PyErr String}
    {B : Nat} {pkvs : List (String × JVal)}
    (hrec : RecOk recur B) (hwfp : wfKVList pkvs = true) (hszp : jsizeKV pkvs ≤ B)
    (hsec : iterableB (jlookupD pkvs "sections" (.arr [])) = true)
    (hall : (match jlookupD pkvs "sections" (.arr []) with
        | JVal.arr ss => ss.all (fun s =>
            match s with
            | JVal.obj sk => iterableB (jlookupD sk "content" (.arr []))
            | _ => true)
        | _ => true) = true) :
    ∃ ps, sectionBlockParts recur (JVal.obj pkvs) = .ok ps ∧ PartsOk ps := by
  simp only [sectionBlockParts, pyGet, except_bind_ok]
  obtain ⟨selems, hse⟩ := pyIter_ok hsec
  simp only [hse, except_bind_ok]
  have hwfsec : ∀ sk, JVal.obj sk ∈ selems → wfVal (JVal.obj sk) = true ∧
      jsize (JVal.obj sk) ≤ B ∧ iterableB (jlookupD sk "content" (.arr [])) = true := by
    intro sk hm
    obtain ⟨l, hl, hml⟩ := pyIter_obj_elem hse hm
    rcases hw : jlookup pkvs "sections" with _ | sv
    · rw [jlookupD_none hw] at hl
      injection hl with hll
      subst hll
      simp at hml
    · rw [jlookupD_some hw] at hl
      subst hl
      have hwfv : wfVal (JVal.arr l) = true := wfKVList_lookup hwfp hw
      have hsv : jsize (JVal.arr l) ≤ jsizeKV pkvs := jlookup_size_le hw
      refine ⟨wfList_mem (wfVal_arr hwfv) hml, ?_, ?_⟩
      · have h1 := mem_size_le hml
        simp only [jsize] at hsv
        omega
      · rw [jlookupD_some hw] at hall
        have hall2 := List.all_eq_true.mp (by simpa using hall) _ hml
        simpa using hall2
  have hmap : ∀ s ∈ selems, ∃ ys, sectionPart recur s = .ok ys ∧
      ∀ p ∈ ys, ∃ t, p = JVal.str t := by
    intro s hs
    cases s with
    | obj sk =>
      obtain ⟨hwsk, hssk, hciter⟩ := hwfsec sk hs
      simp only [sectionPart]
      obtain ⟨celems, hce⟩ := pyIter_ok hciter
      simp only [hce, except_bind_ok]
      have hcmap : ∀ c ∈ celems, ∃ zs, childCompPart recur c = .ok zs ∧
          ∀ p ∈ zs, ∃ t, p = JVal.str t := by
        intro c hc
        apply childCompPart_ok hrec
        intro ck hck
        subst hck
        obtain ⟨cl, hcl, hcm⟩ := pyIter_obj_elem hce hc
        rcases hwc : jlookup sk "content" with _ | cv
        · rw [jlookupD_none hwc] at hcl
          injection hcl with hll
          subst hll
          simp at hcm
        · rw [jlookupD_some hwc] at hcl
          subst hcl
          have hwcv : wfVal (JVal.arr cl) = true := wfKVList_lookup (wfVal_obj hwsk).2 hwc
          have hsv : jsize (JVal.arr cl) ≤ jsizeKV sk := jlookup_size_le hwc
          refine ⟨wfList_mem (wfVal_arr hwcv) hcm, ?_⟩
          have h1 := mem_size_le hcm
          have h2 : jsizeKV sk ≤ B := jsizeKV_le_of_obj_le hssk
          simp only [jsize] at hsv
          omega
      obtain ⟨cparts, hcp, hcpP⟩ := emapM_ok hcmap
      simp only [hcp, except_bind_ok]
      refine ⟨_, rfl, ?_⟩
      intro p hp
      rcases List.mem_append.mp hp with h1 | h1
      · exact mem_if_str h1
      · simp only [List.mem_flatten] at h1
        obtain ⟨l, hl, hpl⟩ := h1
        exact hcpP l hl p hpl
    | null => exact ⟨_, rfl, by simp⟩
    | bool b => exact ⟨_, rfl, by simp⟩
    | num n => exact ⟨_, rfl, by simp⟩
    | flt l => exact ⟨_, rfl, by simp⟩
    | str t => exact ⟨_, rfl, by simp⟩
    | arr xs => exact ⟨_, rfl, by simp⟩
  obtain ⟨parts, hps, hpsP⟩ := emapM_ok hmap
  simp only [hps, except_bind_ok]
  exact ⟨_, rfl, partsOk_flatten_strs hpsP⟩

/-- One layout slot succeeds on a well-shaped row dict within the bound. -/
theorem layoutSlotParts_ok {recur : List (String × JVal) → Except PyErr String}
    {B : Nat} {rk : List (String × JVal)} {key : String}
    (hrec : RecOk recur B) (hwfr : wfKVList rk = true) (hszr : jsizeKV rk ≤ B) :
    ∃ ps, layoutSlotParts recur rk key = .ok ps ∧ ∀ p ∈ ps, ∃ t, p = JVal.str t := by
  simp only [layoutSlotParts]
  by_cases hk : hasKey rk key = true
  · rw [if_pos hk]
    obtain ⟨vv, hvv⟩ := hasKey_some hk
    rw [jlookupD_some hvv]
    cases vv with
    | obj ok2 =>
      obtain ⟨s, hs⟩ := hrec ok2 (wfKVList_lookup hwfr hvv)
        (le_trans (jlookup_size_le hvv) hszr)
      simp only [hs, except_bind_ok]
      exact ⟨_, rfl, by simp⟩
    | arr items =>
      have hmap : ∀ it ∈ items, ∃ zs, childCompPart recur it = .ok zs ∧
          ∀ p ∈ zs, ∃ t, p = JVal.str t := by
        intro it hit
        apply childCompPart_ok hrec
        intro ik hik
        subst hik
        have hwfv : wfVal (JVal.arr items) = true := wfKVList_lookup hwfr hvv
        have hsv : jsize (JVal.arr items) ≤ jsizeKV rk := jlookup_size_le hvv
        refine ⟨wfList_mem (wfVal_arr hwfv) hit, ?_⟩
        have h1 := mem_size_le hit
        simp only [jsize] at hsv
        omega
      obtain ⟨ps2, hps2, hP⟩ := emapM_ok hmap
      simp only [hps2, except_bind_ok]
      exact ⟨_, rfl, fun p hp => by
        simp only [List.mem_flatten] at hp
        obtain ⟨l, hl, hpl⟩ := hp
        exact hP l hl p hpl⟩
    | null => exact ⟨_, rfl, by simp⟩
    | bool b => exact ⟨_, rfl, by simp⟩
    | num n => exact ⟨_, rfl, by simp⟩
    | flt l => exact ⟨_, rfl, by simp⟩
    | str s => exact ⟨_, rfl, by simp⟩
  · rw [if_neg hk]
    exact ⟨_, rfl, by simp⟩

/-- One layout row succeeds when dict rows are well-shaped within the bound. -/
theorem layoutRowParts_ok {recur : List (String × JVal) → Except PyErr String}
    {B : Nat} {row : JVal}
    (hrec : RecOk recur B)
    (hobj : ∀ rk, row = JVal.obj rk → wfKVList rk = true ∧ jsizeKV rk ≤ B) :
    ∃ ps, layoutRowParts recur row = .ok ps ∧ ∀ p ∈ ps, ∃ t, p = JVal.str t := by
  cases row with
  | obj rk =>
    obtain ⟨hwfr, hszr⟩ := hobj rk rfl
    simp only [layoutRowParts]
    have hmap : ∀ key ∈ ["headerLeft", "headerRight", "mediumLeft", "mediumRight"],
        ∃ zs, layoutSlotParts recur rk key = .ok zs ∧ ∀ p ∈ zs, ∃ t, p = JVal.str t :=
      fun key _ => layoutSlotParts_ok hrec hwfr hszr
    obtain ⟨ps2, hps2, hP⟩ := emapM_ok hmap
    simp only [hps2, except_bind_ok]
    exact ⟨_, rfl, fun p hp => by
      simp only [List.mem_flatten] at hp
      obtain ⟨l, hl, hpl⟩ := hp
      exact hP l hl p hpl⟩
  | null => exact ⟨_, rfl, by simp⟩
  | bool b => exact ⟨_, rfl, by simp⟩
  | num n => exact ⟨_, rfl, by simp⟩
  | flt l => exact ⟨_, rfl, by simp⟩
  | str s => exact ⟨_, rfl, by simp⟩
  | arr xs => exact ⟨_, rfl, by simp⟩

/-- The layout branch succeeds when its children dict has iterable rows. -/
theorem layoutParts_ok {recur : List (String × JVal) → Except PyErr String}
    {B : Nat} {pkvs : List (String × JVal)}
    (hrec : RecOk recur B) (hwfp : wfKVList pkvs = true) (hszp : jsizeKV pkvs ≤ B)
    (hld : (match jlookupD pkvs "children" (.obj []) with
        | JVal.obj ck => iterableB (jlookupD ck "rows" (.arr []))
        | _ => true) = true) :
    ∃ ps, layoutParts recur (JVal.obj pkvs) = .ok ps ∧ PartsOk ps := by
  simp only [layoutParts, pyGet, except_bind_ok]
  rcases hw : jlookup pkvs "children" with _ | cv
  · rw [jlookupD_none hw]
    simp only [jlookupD, jlookup, Option.getD_none]
    exact ⟨_, rfl, partsOk_nil⟩
  · rw [jlookupD_some hw] at hld ⊢
    cases cv with
    | obj ck =>
      have hiter : iterableB (jlookupD ck "rows" (.arr [])) = true := by simpa using hld
      obtain ⟨relems, hre⟩ := pyIter_ok hiter
      simp only [hre, except_bind_ok]
      have hwck : wfKVList ck = true := (wfVal_obj (wfKVList_lookup hwfp hw)).2
      have hsck : jsizeKV ck ≤ B := by
        have h1 := jlookup_size_le hw
        simp only [jsize] at h1
        omega
      have hmap : ∀ row ∈ relems, ∃ zs, layoutRowParts recur row = .ok zs ∧
          ∀ p ∈ zs, ∃ t, p = JVal.str t := by
        intro row hrw
        apply layoutRowParts_ok hrec
        intro rk hrk
        subst hrk
        obtain ⟨rl, hrl, hrm⟩ := pyIter_obj_elem hre hrw
        rcases hwr : jlookup ck "rows" with _ | rv
        · rw [jlookupD_none hwr] at hrl
          injection hrl with hll
          subst hll
          simp at hrm
        · rw [jlookupD_some hwr] at hrl
          subst hrl
          have hwfv : wfVal (JVal.arr rl) = true := wfKVList_lookup hwck hwr
          have hsv : jsize (JVal.arr rl) ≤ jsizeKV ck := jlookup_size_le hwr
          have hwrk : wfVal (JVal.obj rk) = true := wfList_mem (wfVal_arr hwfv) hrm
          have h1 := mem_size_le hrm
          refine ⟨(wfVal_obj hwrk).2, ?_⟩
          simp only [jsize] at hsv h1
          omega
      obtain ⟨ps2, hps2, hP⟩ := emapM_ok hmap
      simp only [hps2, except_bind_ok]
      exact ⟨_, rfl, partsOk_flatten_strs hP⟩
    | null => exact ⟨_, rfl, partsOk_nil⟩
    | bool b => exact ⟨_, rfl, partsOk_nil⟩
    | num n => exact ⟨_, rfl, partsOk_nil⟩
    | flt l => exact ⟨_, rfl, partsOk_nil⟩
    | str s => exact ⟨_, rfl, partsOk_nil⟩
    | arr xs => exact ⟨_, rfl, partsOk_nil⟩

/-- The miniCardBlock branch succeeds when children is iterable. -/
theorem miniCardBlockParts_ok {recur : List (String × JVal) → Except PyErr String}
    {B : Nat} {pkvs : List (String × JVal)}
    (hrec : RecOk recur B) (hwfp : wfKVList pkvs = true) (hszp : jsizeKV pkvs ≤ B)
    (hch : iterableB (jlookupD pkvs "children" (.arr [])) = true) :
    ∃ ps, miniCardBlockParts recur (JVal.obj pkvs) = .ok ps ∧ PartsOk ps := by
  simp only [miniCardBlockParts, pyGet, except_bind_ok]
  obtain ⟨celems, hce⟩ := pyIter_ok hch
  simp only [hce, except_bind_ok]
  have hmap : ∀ c ∈ celems, ∃ zs, childCompPart recur c = .ok zs ∧
      ∀ p ∈ zs, ∃ t, p = JVal.str t := by
    intro c hc
    apply childCompPart_ok hrec
    intro ck hck
    subst hck
    obtain ⟨cl, hcl, hcm⟩ := pyIter_obj_elem hce hc
    rcases hwc : jlookup pkvs "children" with _ | cv
    · rw [jlookupD_none hwc] at hcl
      injection hcl with hll
      subst hll
      simp at hcm
    · rw [jlookupD_some hwc] at hcl
      subst hcl
      have hwfv : wfVal (JVal.arr cl) = true := wfKVList_lookup hwfp hwc
      have hsv : jsize (JVal.arr cl) ≤ jsizeKV pkvs := jlookup_size_le hwc
      refine ⟨wfList_mem (wfVal_arr hwfv) hcm, ?_⟩
      have h1 := mem_size_le hcm
      simp only [jsize] at hsv
      omega
  obtain ⟨ps2, hps2, hP⟩ := emapM_ok hmap
  simp only [hps2, except_bind_ok]
  exact ⟨_, rfl, partsOk_flatten_strs hP⟩

/-- The children loop of the universal post-step succeeds and preserves the
accumulator invariant. -/
theorem postChildrenLoop_ok {recur : List (String × JVal) → Except PyErr String}
    {childs : List JVal} {parts : List JVal}
    (hrec : ∀ kvs', JVal.obj kvs' ∈ childs → ∃ s, recur kvs' = .ok s)
    (hp : PartsOk parts) :
    ∃ ps, postChildrenLoop recur childs parts = .ok ps ∧ PartsOk ps := by
  induction childs generalizing parts with
  | nil => exact ⟨parts, rfl, hp⟩
  | cons c rest ih =>
    cases c with
    | obj ck =>
      obtain ⟨s, hs⟩ := hrec ck (by simp)
      simp only [postChildrenLoop, postChildFold, hs, except_bind_ok]
      apply ih (fun kvs' hm => hrec kvs' (by simp [hm]))
      split
      · exact partsOk_append hp (partsOk_of_strs (by simp))
      · exact hp
    | null =>
      simp only [postChildrenLoop, postChildFold, except_bind_ok]
      exact ih (fun kvs' hm => hrec kvs' (by simp [hm])) hp
    | bool b =>
      simp only [postChildrenLoop, postChildFold, except_bind_ok]
      exact ih (fun kvs' hm => hrec kvs' (by simp [hm])) hp
    | num n =>
      simp only [postChildrenLoop, postChildFold, except_bind_ok]
      exact ih (fun kvs' hm => hrec kvs' (by simp [hm])) hp
    | flt l =>
      simp only [postChildrenLoop, postChildFold, except_bind_ok]
      exact ih (fun kvs' hm => hrec kvs' (by simp [hm])) hp
    | str s =>
      simp only [postChildrenLoop, postChildFold, except_bind_ok]
      exact ih (fun kvs' hm => hrec kvs' (by simp [hm])) hp
    | arr xs =>
      simp only [postChildrenLoop, postChildFold, except_bind_ok]
      exact ih (fun kvs' hm => hrec kvs' (by simp [hm])) hp

/-- The universal post-step for one key succeeds on a dict props within the
bound and preserves the accumulator invariant. -/
theorem postKeyStep_ok (key : String) {recur : List (String × JVal) → Except PyErr String}
    {B : Nat} {pkvs : List (String × JVal)} {parts : List JVal}
    (hrec : RecOk recur B) (hwfp : wfKVList pkvs = true) (hszp : jsizeKV pkvs ≤ B)
    (hp : PartsOk parts) :
    ∃ ps, postKeyStep recur (JVal.obj pkvs) key parts = .ok ps ∧ PartsOk ps := by
  simp only [postKeyStep, pyIn, except_bind_ok]
  by_cases hk : hasKey pkvs key = true
  · rw [if_pos hk]
    obtain ⟨vv, hvv⟩ := hasKey_some hk
    simp only [pySubscript, hvv, except_bind_ok]
    cases vv with
    | arr childs =>
      apply postChildrenLoop_ok _ hp
      intro kvs' hm
      have hwfv : wfVal (JVal.arr childs) = true := wfKVList_lookup hwfp hvv
      have hsv : jsize (JVal.arr childs) ≤ jsizeKV pkvs := jlookup_size_le hvv
      have h1 := mem_size_le hm
      apply hrec kvs' (wfList_mem (wfVal_arr hwfv) hm)
      simp only [jsize] at hsv
      omega
    | null => exact ⟨parts, rfl, hp⟩
    | bool b => exact ⟨parts, rfl, hp⟩
    | num n => exact ⟨parts, rfl, hp⟩
    | flt l => exact ⟨parts, rfl, hp⟩
    | str s => exact ⟨parts, rfl, hp⟩
    | obj kvs2 => exact ⟨parts, rfl, hp⟩
  · rw [if_neg hk]
    exact ⟨parts, rfl, hp⟩

/-- The full universal post-step succeeds on a dict props within the bound. -/
theorem postStep_ok {recur : List (String × JVal) → Except PyErr String}
    {B : Nat} {pkvs : List (String × JVal)} {parts : List JVal}
    (hrec : RecOk recur B) (hwfp : wfKVList pkvs = true) (hszp : jsizeKV pkvs ≤ B)
    (hp : PartsOk parts) :
    ∃ ps, postStep recur (JVal.obj pkvs) parts = .ok ps ∧ PartsOk ps := by
  simp only [postStep]
  obtain ⟨p1, hp1, hP1⟩ := postKeyStep_ok "children" hrec hwfp hszp hp
  simp only [hp1, except_bind_ok]
  exact postKeyStep_ok "content" hrec hwfp hszp hP1

/-- String-only part lists can all be collected. -/
theorem allStrings_of_strs {ps : List JVal} (h : ∀ p ∈ ps, ∃ s, p = JVal.str s) :
    ∃ l, allStrings ps = some l := by
  induction ps with
  | nil => exact ⟨[], rfl⟩
  | cons p rest ih =>
    obtain ⟨s, hs⟩ := h p (by simp)
    subst hs
    obtain ⟨l, hl⟩ := ih (fun q hq => h q (by simp [hq]))
    exact ⟨s :: l, by simp [allStrings, hl]⟩

/-- The final join succeeds under the accumulator invariant. -/
theorem finishParts_ok {ps : List JVal} (hp : PartsOk ps) :
    ∃ s, finishParts ps = .ok s := by
  unfold finishParts
  have hstr : ∀ p ∈ ps.filter pyTruthy, ∃ s, p = JVal.str s := by
    intro p hpf
    have h2 := List.mem_filter.mp hpf
    exact hp p h2.1 h2.2
  obtain ⟨l, hl⟩ := allStrings_of_strs hstr
  rw [hl]
  exact ⟨_, rfl⟩

/-- The full per-kind dispatch succeeds under the per-kind shape demands. -/
theorem compParts_ok {recur : List (String × JVal) → Except PyErr String}
    {B : Nat} {ct : String} {pkvs : List (String × JVal)}
    (hrec : RecOk recur B) (hdem : ctDemands ct pkvs = true)
    (hwfp : wfKVList pkvs = true) (hszp : jsizeKV pkvs ≤ B) :
    ∃ ps, compParts recur ct (JVal.obj pkvs) = .ok ps ∧ PartsOk ps := by
  unfold compParts
  unfold ctDemands at hdem
  by_cases hH : (ct = "header" ∨ ct = "inlineheader")
  · rw [if_pos hH]
    rw [if_pos hH] at hdem
    simp only [Bool.and_eq_true] at hdem
    exact headerParts_ok hdem.1 hdem.2
  · rw [if_neg hH]
    rw [if_neg hH] at hdem
    by_cases hT : (ct = "textcontent" ∨ ct = "text" ∨ ct = "paragraph")
    · rw [if_pos hT]
      rw [if_pos hT] at hdem
      simp only [Bool.and_eq_true] at hdem
      exact textParts_ok hdem.1.1 hdem.1.2 hdem.2
    · rw [if_neg hT]
      rw [if_neg hT] at hdem
      by_cases hD : (ct = "datatile" ∨ ct = "minicard")
      · rw [if_pos hD]
        exact dataTileParts_ok hrec hwfp hszp
      · rw [if_neg hD]
        by_cases hC : ct = "card"
        · rw [if_pos hC]
          exact cardParts_ok
        · rw [if_neg hC]
          by_cases hL : ct = "list"
          · rw [if_pos hL]
            rw [if_pos hL] at hdem
            simp only [Bool.and_eq_true] at hdem
            exact listParts_ok hdem.1 hdem.2
          · rw [if_neg hL]
            rw [if_neg hL] at hdem
            by_cases hTa : ct = "table"
            · rw [if_pos hTa]
              rw [if_pos hTa] at hdem
              revert hdem
              cases h1 : jlookupD pkvs "tableHeader" (.obj []) with
              | obj th =>
                cases h2 : jlookupD pkvs "tableBody" (.obj []) with
                | obj tb =>
                  intro hdem
                  simp only [Bool.and_eq_true] at hdem
                  exact tableParts_ok h1 h2 hdem.1 hdem.2
                | null => intro hdem; exact absurd hdem (by simp)
                | bool b => intro hdem; exact absurd hdem (by simp)
                | num n => intro hdem; exact absurd hdem (by simp)
                | flt l => intro hdem; exact absurd hdem (by simp)
                | str s => intro hdem; exact absurd hdem (by simp)
                | arr xs => intro hdem; exact absurd hdem (by simp)
              | null => intro hdem; exact absurd hdem (by simp)
              | bool b => intro hdem; exact absurd hdem (by simp)
              | num n => intro hdem; exact absurd hdem (by simp)
              | flt l => intro hdem; exact absurd hdem (by simp)
              | str s => intro hdem; exact absurd hdem (by simp)
              | arr xs => intro hdem; exact absurd hdem (by simp)
            · rw [if_neg hTa]
              rw [if_neg hTa] at hdem
              by_cases hCh : chartKindB ct = true
              · rw [if_pos hCh]
                rw [if_pos hCh] at hdem
                revert hdem
                cases h1 : jlookupD pkvs "chartData" (.obj []) with
                | obj cd => intro hdem; exact chartParts_ok h1 hdem
                | null => intro hdem; exact absurd hdem (by simp)
                | bool b => intro hdem; exact absurd hdem (by simp)
                | num n => intro hdem; exact absurd hdem (by simp)
                | flt l => intro hdem; exact absurd hdem (by simp)
                | str s => intro hdem; exact absurd hdem (by simp)
                | arr xs => intro hdem; exact absurd hdem (by simp)
              · rw [if_neg hCh]
                rw [if_neg hCh] at hdem
                by_cases hS : ct = "sectionblock"
                · rw [if_pos hS]
                  rw [if_pos hS] at hdem
                  simp only [Bool.and_eq_true] at hdem
                  exact sectionBlockParts_ok hrec hwfp hszp hdem.1 hdem.2
                · rw [if_neg hS]
                  rw [if_neg hS] at hdem
                  by_cases hLa : ct = "layout"
                  · rw [if_pos hLa]
                    rw [if_pos hLa] at hdem
                    exact layoutParts_ok hrec hwfp hszp hdem
                  · rw [if_neg hLa]
                    rw [if_neg hLa] at hdem
                    by_cases hM : ct = "minicardblock"
                    · rw [if_pos hM]
                      rw [if_pos hM] at hdem
                      exact miniCardBlockParts_ok hrec hwfp hszp hdem
                    · rw [if_neg hM]
                      exact ⟨[], rfl, partsOk_nil⟩

/-- The shared body of `_extract_component` after discriminant resolution:
branch dispatch, post-step, final join. -/
theorem compBody_ok {recur : List (String × JVal) → Except PyErr String}
    {B : Nat} {comp : List (String × JVal)} {ct : String}
    (hrec : RecOk recur B)
    (hloc : (match jlookupD comp "props" (.obj []) with
        | JVal.obj pkvs => ctDemands ct pkvs
        | _ => false) = true)
    (hkv : wfKVList comp = true) (hB : jsizeKV comp ≤ B) :
    ∃ s, (do
      let parts ← compParts recur ct (jlookupD comp "props" (.obj []))
      let parts2 ← postStep recur (jlookupD comp "props" (.obj [])) parts
      finishParts parts2) = Except.ok s := by
  rcases hw : jlookup comp "props" with _ | pv
  · rw [jlookupD_none hw] at hloc ⊢
    have hdem : ctDemands ct [] = true := by simpa using hloc
    have hwfnil : wfKVList ([] : List (String × JVal)) = true := rfl
    obtain ⟨ps, hps, hP⟩ := compParts_ok hrec hdem hwfnil (Nat.zero_le B)
    simp only [hps, except_bind_ok]
    obtain ⟨ps2, hps2, hP2⟩ := postStep_ok hrec hwfnil (Nat.zero_le B) hP
    simp only [hps2, except_bind_ok]
    exact finishParts_ok hP2
  · rw [jlookupD_some hw] at hloc ⊢
    cases pv with
    | obj pkvs =>
      have hdem : ctDemands ct pkvs = true := by simpa using hloc
      have hwfp : wfKVList pkvs = true := (wfVal_obj (wfKVList_lookup hkv hw)).2
      have hszp : jsizeKV pkvs ≤ B := by
        have h1 := jlookup_size_le hw
        simp only [jsize] at h1
        omega
      obtain ⟨ps, hps, hP⟩ := compParts_ok hrec hdem hwfp hszp
      simp only [hps, except_bind_ok]
      obtain ⟨ps2, hps2, hP2⟩ := postStep_ok hrec hwfp hszp hP
      simp only [hps2, except_bind_ok]
      exact finishParts_ok hP2
    | null => exact absurd hloc (by simp)
    | bool b => exact absurd hloc (by simp)
    | num n => exact absurd hloc (by simp)
    | flt l => exact absurd hloc (by simp)
    | str s => exact absurd hloc (by simp)
    | arr xs => exact absurd hloc (by simp)

/-- The component extractor returns a string on every well-shaped dict when
given at least the dict's size in fuel: with well-shaped fields no branch can
raise, and the fuel (an embedding artefact) cannot run out because every
recursive call descends into a strictly smaller subvalue. -/
theorem extractComponentF_ok (fuel : Nat) :
    ∀ comp : List (String × JVal), wfVal (JVal.obj comp) = true →
      jsize (JVal.obj comp) ≤ fuel → ∃ s, extractComponentF fuel comp = .ok s := by
  induction fuel with
  | zero =>
    intro comp _ hsz
    have := jsize_pos (JVal.obj comp)
    omega
  | succ f ih =>
    intro comp hwf hsz
    obtain ⟨hloc, hkv⟩ := wfVal_obj hwf
    have hB : jsizeKV comp ≤ f := by
      simp only [jsize] at hsz
      omega
    have hrec : RecOk (extractComponentF f) (jsizeKV comp) := by
      intro kvs' hw hs
      exact ih kvs' hw (le_trans hs hB)
    simp only [extractComponentF]
    unfold localOK at hloc
    rcases hcv : jlookup comp "component" with _ | cv
    · rw [jlookupD_none hcv] at hloc ⊢
      exact compBody_ok hrec (by simpa using hloc) hkv le_rfl
    · rw [jlookupD_some hcv] at hloc ⊢
      cases cv with
      | obj inner =>
        exact ih inner (wfKVList_lookup hkv hcv) (le_trans (jlookup_size_le hcv) hB)
      | null => exact compBody_ok hrec (by simpa using hloc) hkv le_rfl
      | bool b => exact compBody_ok hrec (by simpa using hloc) hkv le_rfl
      | num n => exact compBody_ok hrec (by simpa using hloc) hkv le_rfl
      | flt l => exact compBody_ok hrec (by simpa using hloc) hkv le_rfl
      | str s => exact compBody_ok hrec (by simpa using hloc) hkv le_rfl
      | arr xs => exact compBody_ok hrec (by simpa using hloc) hkv le_rfl

/-- The full extractor returns a string on every well-shaped value when given
at least the value's size in fuel. -/
theorem extractAllF_ok (fuel : Nat) :
    ∀ v : JVal, wfVal v = true → jsize v ≤ fuel → ∃ s, extractAllF fuel v = .ok s := by
  induction fuel with
  | zero =>
    intro v _ hsz
    have := jsize_pos v
    omega
  | succ f ih =>
    intro v hwf hsz
    cases v with
    | null => exact ⟨_, rfl⟩
    | bool b => exact ⟨_, rfl⟩
    | num n => exact ⟨_, rfl⟩
    | flt l => exact ⟨_, rfl⟩
    | str s => exact ⟨_, rfl⟩
    | arr xs =>
      have hmap : ∀ x ∈ xs, ∃ y, extractAllF f x = .ok y ∧ True := by
        intro x hx
        have h1 := mem_size_le hx
        have h2 : jsize (JVal.arr xs) ≤ f + 1 := hsz
        simp only [jsize] at h2
        obtain ⟨y, hy⟩ := ih x (wfList_mem (wfVal_arr hwf) hx) (by omega)
        exact ⟨y, hy, trivial⟩
      obtain ⟨ys, hys, _⟩ := emapM_ok hmap
      simp only [extractAllF, hys, except_bind_ok]
      exact ⟨_, rfl⟩
    | obj kvs =>
      simp only [extractAllF]
      by_cases hck : hasKey kvs "component" = true
      · rw [if_pos hck]
        exact extractComponentF_ok (f + 1) kvs hwf hsz
      · rw [if_neg hck]
        have hkv : wfKVList kvs = true := (wfVal_obj hwf).2
        have hsz2 : jsizeKV kvs ≤ f := by
          simp only [jsize] at hsz
          omega
        have hmap1 : ∀ x ∈ specialKeys.filterMap (fun k => jlookup kvs k),
            ∃ y, extractAllF f x = .ok y ∧ True := by
          intro x hx
          simp only [List.mem_filterMap] at hx
          obtain ⟨k, _, hk⟩ := hx
          obtain ⟨y, hy⟩ := ih x (wfKVList_lookup hkv hk)
            (le_trans (jlookup_size_le hk) hsz2)
          exact ⟨y, hy, trivial⟩
        obtain ⟨ys, hys, _⟩ := emapM_ok hmap1
        simp only [hys, except_bind_ok]
        split
        · have hmap2 : ∀ kv ∈ kvs.filter (fun kv => !denyKeys.contains kv.1),
              ∃ y, extractAllF f kv.2 = .ok y ∧ True := by
            intro kv hkv2
            have hm := List.mem_filter.mp hkv2
            obtain ⟨y, hy⟩ := ih kv.2 (wfKVList_mem hkv hm.1)
              (le_trans (jsizeKV_mem hm.1) hsz2)
            exact ⟨y, hy, trivial⟩
          obtain ⟨zs, hzs, _⟩ := emapM_ok hmap2
          simp only [hzs, except_bind_ok]
          exact ⟨_, rfl⟩
        · exact ⟨_, rfl⟩

/-! ## Claim theorems -/

/-- C1 (counterexample): the claim "extract_readable_content never raises,
for example when a component's props field is not of the expected type" is
false on the code: on the valid JSON input `{"component": "header",
"props": 5}` the header branch evaluates `props.get("title", "")` on the
integer `5`, which raises AttributeError, and `extract_readable_content`
catches only `json.JSONDecodeError`, so the exception propagates. -/
theorem C1_counterexample :
    extract_readable_content "\x7b\"component\": \"header\", \"props\": 5\x7d" =
      .error .attributeError := by
  rfl

/-- C1 (amended): `extract_readable_content` terminates on every input (it is
a total function of the input string), and returns a string without raising
whenever the input is well-shaped: the working string fails to parse as JSON
(so extraction falls back to the decoded text), or parses to a value all of
whose dicts have workable field types (`wfInput`/`wfVal`); an ill-typed
component field such as `props: 5` instead propagates an
AttributeError/TypeError to the caller (see `C1_counterexample`). -/
theorem C1_amended_total_on_wellshaped :
    ∀ s : String, wfInput s = true → ∃ out, extract_readable_content s = .ok out := by
  intro s h
  unfold wfInput at h
  unfold extract_readable_content
  by_cases hs : s = ""
  · rw [if_pos hs]
    exact ⟨"", rfl⟩
  · rw [if_neg hs] at h ⊢
    cases hp : parseStage (workingStr (htmlUnescape s)) with
    | none => exact ⟨_, rfl⟩
    | some v =>
      rw [hp] at h
      exact extractAllF_ok (jsize v) v (by simpa using h) le_rfl

/-- C1 (witness): the amended totality theorem applied to a concrete
well-shaped component input. -/
theorem C1_witness :
    ∃ out, extract_readable_content
      "\x7b\"component\": \"header\", \"props\": \x7b\"title\": \"Hi\"\x7d\x7d" = .ok out :=
  C1_amended_total_on_wellshaped _ (by rfl)

/-- C2 (counterexample): the claim "the extractor reduces only the value of
the first present special key; later present special keys contribute
nothing" is false on the code: the special-key loop has no break, so for
`{"content": "A", "items": "B"}` the output is "A\n\nB" — the later key
`items` contributed "B" — not "A". -/
theorem C2_counterexample :
    extract_readable_content "\x7b\"content\": \"A\", \"items\": \"B\"\x7d" =
      .ok "A\n\nB" ∧ ("A\n\nB" : String) ≠ "A" := by
  constructor
  · rfl
  · decide

/-- C2 (amended): on a mapping without a component discriminant the extractor
reduces the values of all present keys among
{component, content, children, sections, items, rows}, in that fixed key
order (regardless of the mapping's own key order), and joins the non-empty
reductions with blank lines; every present special key contributes. -/
theorem C2_amended_all_special_keys_contribute :
    ∀ (f : Nat) (a b : JVal) (sa sb : String),
      extractAllF f a = .ok sa → extractAllF f b = .ok sb → sa ≠ "" → sb ≠ "" →
      extractAllF (f + 1) (JVal.obj [("items", b), ("content", a)]) =
        .ok (String.intercalate "\n\n" [sa, sb]) := by
  intro f a b sa sb ha hb hsa hsb
  have h1 : (sa != "") = true := by simpa using hsa
  have h2 : (sb != "") = true := by simpa using hsb
  simp only [extractAllF]
  rw [show hasKey [("items", b), ("content", a)] "component" = false from rfl]
  simp only [Bool.false_eq_true, if_false]
  rw [show specialKeys.filterMap (fun k => jlookup [("items", b), ("content", a)] k)
      = [a, b] from rfl]
  simp only [emapM, ha, hb, except_bind_ok]
  simp only [List.filter, h1, h2]
  simp only [List.isEmpty_cons, Bool.false_eq_true, if_false]

/-- C2 (witness): the amended theorem at two concrete string values. -/
theorem C2_witness :
    extractAllF 2 (JVal.obj [("items", JVal.str "B"), ("content", JVal.str "A")]) =
      .ok (String.intercalate "\n\n" ["A", "B"]) :=
  C2_amended_all_special_keys_contribute 1 (JVal.str "A") (JVal.str "B") "A" "B"
    rfl rfl (by decide) (by decide)

/-- C3 (counterexample): the claim "the emitted bullet lines are exactly the
labels zipped with the first series' values; values of any second or later
series do not appear" is false on the code: the series loop emits one zip per
series, so a two-series chart (labels ["a"], values [1] and [2]) renders both
"- a: 1" and "- a: 2". -/
theorem C3_counterexample :
    extractComponentF 1
      [("component", JVal.str "barChart"),
        ("props", JVal.obj [("chartData", JVal.obj [("data", JVal.obj
          [("labels", JVal.arr [JVal.str "a"]),
            ("series", JVal.arr [JVal.obj [("values", JVal.arr [JVal.num 1])],
              JVal.obj [("values", JVal.arr [JVal.num 2])]])])])])] =
      .ok "- a: 1\n- a: 2" ∧ ("- a: 1\n- a: 2" : String) ≠ "- a: 1" := by
  exact ⟨rfl, by decide⟩

/-- Unfolding the component extractor on a two-field component dict. -/
theorem extractComponentF_concrete (f : Nat) (kind : String) (props : JVal) :
    extractComponentF (f + 1) [("component", JVal.str kind), ("props", props)] =
      (do
        let parts ← compParts (extractComponentF f) (sToLower kind) props
        let parts2 ← postStep (extractComponentF f) props parts
        finishParts parts2) := rfl

/-- A chart-kind discriminant selects the chart branch. -/
theorem compParts_chart {recur : List (String × JVal) → Except PyErr String}
    {ct : String} {props : JVal} (h : chartKindB ct = true) :
    compParts recur ct props = chartParts props := by
  have h6 : ct = "barchartv2" ∨ ct = "barchart" ∨ ct = "piechartv2" ∨ ct = "piechart" ∨
      ct = "linechartv2" ∨ ct = "linechart" := by simpa [chartKindB] using h
  unfold compParts
  rcases h6 with h | h | h | h | h | h <;> subst h <;> rfl

/-- Evaluating one series entry of the regular shape: zip, with the
truthiness guard absorbed (an empty side zips to nothing anyway). -/
theorem chartSeriesPart_eval (labels vs : List JVal) :
    chartSeriesPart (JVal.arr labels) (JVal.obj [("values", JVal.arr vs)]) =
      .ok ((labels.zip vs).map
        (fun lv => JVal.str ("- " ++ pyStr lv.1 ++ ": " ++ pyStr lv.2))) := by
  simp only [chartSeriesPart]
  rw [show jlookupD [("values", JVal.arr vs)] "values" (.arr []) = JVal.arr vs from rfl]
  by_cases hc : (pyTruthy (JVal.arr labels) && pyTruthy (JVal.arr vs)) = true
  · rw [if_pos hc]
    simp only [pyIter, except_bind_ok]
  · rw [if_neg hc]
    cases labels with
    | nil => simp
    | cons x xs =>
      cases vs with
      | nil => simp
      | cons y ys => exact absurd (by simp [pyTruthy]) hc

/-- Mapping under an effectful map with a pointwise evaluation. -/
theorem emapM_map_eval {α β γ : Type} (g : α → β) (f : β → Except PyErr γ) (h : α → γ)
    (H : ∀ x, f (g x) = .ok (h x)) :
    ∀ xs : List α, emapM (xs.map g) f = .ok (xs.map h) := by
  intro xs
  induction xs with
  | nil => rfl
  | cons x xs ih => simp only [List.map, emapM, H, ih, except_bind_ok]

/-- Flattening commutes with tagging every string. -/
theorem flatten_map_str {α : Type} (g : α → String) :
    ∀ L : List (List α),
      (L.map (fun l => l.map (fun x => JVal.str (g x)))).flatten =
        ((L.map (fun l => l.map g)).flatten).map JVal.str := by
  intro L
  induction L with
  | nil => rfl
  | cons l ls ih => simp [ih, List.map_map]

/-- A string with a non-empty left part is non-empty. -/
theorem append_ne_empty_left {a : String} (b : String) (ha : a ≠ "") : a ++ b ≠ "" := by
  intro h
  have h2 := congrArg String.length h
  rw [String.length_append, show ("" : String).length = 0 from rfl] at h2
  apply ha
  have h3 : a.length = 0 := by omega
  cases a with
  | mk data =>
    cases data with
    | nil => rfl
    | cons c cs => simp [String.length, List.length] at h3

/-- Truthy string parts survive the final filter. -/
theorem filter_pyTruthy_strs :
    ∀ ls : List String, (∀ s ∈ ls, s ≠ "") →
      (ls.map JVal.str).filter pyTruthy = ls.map JVal.str := by
  intro ls h
  induction ls with
  | nil => rfl
  | cons s rest ih =>
    have hs : (s != "") = true := by simpa using h s (by simp)
    simp only [List.map, List.filter, pyTruthy, hs]
    rw [ih (fun t ht => h t (by simp [ht]))]

/-- Collecting an all-strings list. -/
theorem allStrings_map_str : ∀ ls : List String, allStrings (ls.map JVal.str) = some ls := by
  intro ls
  induction ls with
  | nil => rfl
  | cons s rest ih => simp [allStrings, ih]

/-- The final join on non-empty strings is the newline join. -/
theorem finishParts_strs {ls : List String} (h : ∀ s ∈ ls, s ≠ "") :
    finishParts (ls.map JVal.str) = .ok (String.intercalate "\n" ls) := by
  unfold finishParts
  rw [filter_pyTruthy_strs ls h, allStrings_map_str]

/-- The universal post-step is a no-op on a props dict whose only key is
`chartData`. -/
theorem postStep_chartData_noop (recur : List (String × JVal) → Except PyErr String)
    (cd : JVal) (parts : List JVal) :
    postStep recur (JVal.obj [("chartData", cd)]) parts = .ok parts := rfl

/-- Every rendered zip line is non-empty. -/
theorem zipLine_ne_empty (a b : JVal) :
    ("- " ++ pyStr a ++ ": " ++ pyStr b) ≠ "" := by
  apply append_ne_empty_left
  apply append_ne_empty_left
  apply append_ne_empty_left
  decide

/-- Evaluating the chart branch on a props dict holding only chart data with
a dict-shaped payload. -/
theorem chartParts_concrete (dk : List (String × JVal)) :
    chartParts (JVal.obj [("chartData", JVal.obj [("data", JVal.obj dk)])]) =
      (do
        let selems ← pyIter (jlookupD dk "series" (.arr []))
        let sparts ← emapM selems (chartSeriesPart (jlookupD dk "labels" (.arr [])))
        let nparts ←
          if pyTruthy (jlookupD dk "series" (.arr [])) then pure ([] : List JVal)
          else
            if pyTruthy (jlookupD dk "labels" (.arr [])) &&
                pyTruthy (pyOr (jlookupD dk "values" (.arr []))
                  (jlookupD dk "data" (.arr []))) then do
              let ls ← pyIter (jlookupD dk "labels" (.arr []))
              let vs ← pyIter (pyOr (jlookupD dk "values" (.arr []))
                (jlookupD dk "data" (.arr [])))
              pure ((ls.zip vs).map (fun lv =>
                JVal.str ("- " ++ pyStr lv.1 ++ ": " ++ pyStr lv.2)))
            else pure ([] : List JVal)
        Except.ok (sparts.flatten ++ nparts)) := rfl

/-- Rendering a string-producing map and tagging. -/
theorem map_str_comp {α : Type} (g : α → String) (l : List α) :
    l.map (fun x => JVal.str (g x)) = (l.map g).map JVal.str := by
  induction l with
  | nil => rfl
  | cons x xs ih => simp [ih]

/-- C3 (amended): for a chart-variant component whose chartData.data is a
mapping, the emitted bullet lines are the concatenation, over all series
entries in order, of the labels zipped with that entry's values — every
series contributes, not only the first; when the series key is absent the
labels are zipped with the top-level values array instead.  (Empty labels or
values zip to nothing, so the equations hold without non-emptiness
hypotheses.) -/
theorem C3_amended_every_series_emitted :
    (∀ (kind : String) (f : Nat) (labels : List JVal) (svalss : List (List JVal)),
      chartKindB (sToLower kind) = true →
      extractComponentF (f + 1)
        [("component", JVal.str kind),
          ("props", JVal.obj [("chartData", JVal.obj [("data", JVal.obj
            [("labels", JVal.arr labels),
              ("series", JVal.arr (svalss.map (fun vs =>
                JVal.obj [("values", JVal.arr vs)])))])])])] =
        .ok (String.intercalate "\n"
          ((svalss.map (fun vs => (labels.zip vs).map
            (fun lv => "- " ++ pyStr lv.1 ++ ": " ++ pyStr lv.2))).flatten))) ∧
    (∀ (kind : String) (f : Nat) (labels vals : List JVal),
      chartKindB (sToLower kind) = true →
      extractComponentF (f + 1)
        [("component", JVal.str kind),
          ("props", JVal.obj [("chartData", JVal.obj [("data", JVal.obj
            [("labels", JVal.arr labels),
              ("values", JVal.arr vals)])])])] =
        .ok (String.intercalate "\n"
          ((labels.zip vals).map
            (fun lv => "- " ++ pyStr lv.1 ++ ": " ++ pyStr lv.2)))) := by
  constructor
  · intro kind f labels svalss hk
    rw [extractComponentF_concrete, compParts_chart hk, chartParts_concrete]
    rw [show jlookupD [("labels", JVal.arr labels),
        ("series", JVal.arr (svalss.map (fun vs => JVal.obj [("values", JVal.arr vs)])))]
        "series" (.arr []) =
        JVal.arr (svalss.map (fun vs => JVal.obj [("values", JVal.arr vs)])) from rfl]
    rw [show jlookupD [("labels", JVal.arr labels),
        ("series", JVal.arr (svalss.map (fun vs => JVal.obj [("values", JVal.arr vs)])))]
        "labels" (.arr []) = JVal.arr labels from rfl]
    rw [show jlookupD [("labels", JVal.arr labels),
        ("series", JVal.arr (svalss.map (fun vs => JVal.obj [("values", JVal.arr vs)])))]
        "values" (.arr []) = JVal.arr [] from rfl]
    rw [show jlookupD [("labels", JVal.arr labels),
        ("series", JVal.arr (svalss.map (fun vs => JVal.obj [("values", JVal.arr vs)])))]
        "data" (.arr []) = JVal.arr [] from rfl]
    simp only [pyIter, except_bind_ok]
    rw [emapM_map_eval (fun vs => JVal.obj [("values", JVal.arr vs)])
      (chartSeriesPart (JVal.arr labels))
      (fun vs => (labels.zip vs).map
        (fun lv => JVal.str ("- " ++ pyStr lv.1 ++ ": " ++ pyStr lv.2)))
      (fun vs => chartSeriesPart_eval labels vs) svalss]
    simp only [except_bind_ok]
    have hline : ∀ s ∈ (svalss.map (fun vs => (labels.zip vs).map
        (fun lv => "- " ++ pyStr lv.1 ++ ": " ++ pyStr lv.2))).flatten, s ≠ "" := by
      intro s hs
      simp only [List.mem_flatten, List.mem_map] at hs
      obtain ⟨l, ⟨vs, _, hvl⟩, hsl⟩ := hs
      subst hvl
      simp only [List.mem_map] at hsl
      obtain ⟨lv, _, hlv⟩ := hsl
      subst hlv
      exact zipLine_ne_empty lv.1 lv.2
    cases svalss with
    | nil =>
      simp only [List.map, pyTruthy, List.isEmpty_nil, Bool.not_true, Bool.false_eq_true,
        if_false, pyOr, Bool.and_false, except_pure, except_bind_ok, emapM]
      rw [postStep_chartData_noop]
      simp only [except_bind_ok]
      rfl
    | cons v0 vs0 =>
      simp only [List.map, pyTruthy, List.isEmpty_cons, Bool.not_false, if_true,
        except_pure, except_bind_ok]
      rw [List.append_nil]
      have hmaps := map_str_comp (fun lv : JVal × JVal => "- " ++ pyStr lv.1 ++ ": " ++ pyStr lv.2)
      simp only [hmaps]
      rw [← List.map_cons (fun vs => ((labels.zip vs).map
        (fun lv => "- " ++ pyStr lv.1 ++ ": " ++ pyStr lv.2)).map JVal.str) v0 vs0]
      rw [show ((v0 :: vs0).map (fun vs => ((labels.zip vs).map
          (fun lv => "- " ++ pyStr lv.1 ++ ": " ++ pyStr lv.2)).map JVal.str)) =
          ((v0 :: vs0).map (fun vs => (labels.zip vs).map
            (fun lv => "- " ++ pyStr lv.1 ++ ": " ++ pyStr lv.2))).map
              (List.map JVal.str) from by simp [List.map_map]]
      rw [← List.map_flatten]
      rw [postStep_chartData_noop]
      simp only [except_bind_ok]
      rw [finishParts_strs (by exact hline)]
      rfl
  · intro kind f labels vals hk
    rw [extractComponentF_concrete, compParts_chart hk, chartParts_concrete]
    rw [show jlookupD [("labels", JVal.arr labels), ("values", JVal.arr vals)]
        "series" (.arr []) = JVal.arr [] from rfl]
    rw [show jlookupD [("labels", JVal.arr labels), ("values", JVal.arr vals)]
        "labels" (.arr []) = JVal.arr labels from rfl]
    rw [show jlookupD [("labels", JVal.arr labels), ("values", JVal.arr vals)]
        "values" (.arr []) = JVal.arr vals from rfl]
    rw [show jlookupD [("labels", JVal.arr labels), ("values", JVal.arr vals)]
        "data" (.arr []) = JVal.arr [] from rfl]
    simp only [pyIter, emapM, except_bind_ok, pyTruthy, List.isEmpty_nil, Bool.not_true,
      Bool.false_eq_true, if_false]
    cases vals with
    | nil =>
      simp only [pyOr, pyTruthy, List.isEmpty_nil, Bool.not_true, Bool.false_eq_true,
        if_false, Bool.and_false, except_pure, except_bind_ok]
      rw [postStep_chartData_noop]
      simp only [except_bind_ok]
      rw [List.zip_nil_right]
      rfl
    | cons y ys =>
      simp only [pyOr, pyTruthy, List.isEmpty_cons, Bool.not_false, if_true,
        Bool.and_true]
      cases labels with
      | nil =>
        simp only [pyTruthy, List.isEmpty_nil, Bool.not_true, Bool.false_eq_true,
          if_false, except_pure, except_bind_ok]
        rw [postStep_chartData_noop]
        simp only [except_bind_ok]
        rfl
      | cons x xs =>
        simp only [pyTruthy, List.isEmpty_cons, Bool.not_false, if_true, pyIter,
          except_pure, except_bind_ok]
        have hline : ∀ s ∈ ((x :: xs).zip (y :: ys)).map
            (fun lv => "- " ++ pyStr lv.1 ++ ": " ++ pyStr lv.2), s ≠ "" := by
          intro s hs
          simp only [List.mem_map] at hs
          obtain ⟨lv, _, hlv⟩ := hs
          subst hlv
          exact zipLine_ne_empty lv.1 lv.2
        rw [map_str_comp]
        rw [postStep_chartData_noop]
        simp only [except_bind_ok, List.flatten_nil, List.nil_append]
        rw [finishParts_strs hline]

/-- C3 (witness): the amended theorem at a concrete two-series chart and a
concrete no-series chart. -/
theorem C3_witness :
    extractComponentF 1
      [("component", JVal.str "pieChart"),
        ("props", JVal.obj [("chartData", JVal.obj [("data", JVal.obj
          [("labels", JVal.arr [JVal.str "a"]),
            ("series", JVal.arr ([[JVal.num 1], [JVal.num 2]].map (fun vs =>
              JVal.obj [("values", JVal.arr vs)])))])])])] =
      .ok (String.intercalate "\n"
        (([[JVal.num 1], [JVal.num 2]].map (fun vs =>
          ((([JVal.str "a"] : List JVal).zip vs).map
            (fun lv => "- " ++ pyStr lv.1 ++ ": " ++ pyStr lv.2)))).flatten)) ∧
    extractComponentF 1
      [("component", JVal.str "lineChart"),
        ("props", JVal.obj [("chartData", JVal.obj [("data", JVal.obj
          [("labels", JVal.arr [JVal.str "a"]),
            ("values", JVal.arr [JVal.num 9])])])])] =
      .ok (String.intercalate "\n"
        ((([JVal.str "a"] : List JVal).zip [JVal.num 9]).map
          (fun lv => "- " ++ pyStr lv.1 ++ ": " ++ pyStr lv.2))) :=
  ⟨C3_amended_every_series_emitted.1 "pieChart" 0 [JVal.str "a"]
      [[JVal.num 1], [JVal.num 2]] (by decide),
    C3_amended_every_series_emitted.2 "lineChart" 0 [JVal.str "a"] [JVal.num 9]
      (by decide)⟩

/-- C5: on the text "Bug: 12\nTask: 5" mining the type category yields
exactly {Bug: 12, Task: 5} (Epic and all other keywords absent), the status
and priority categories mine to empty mappings and so produce no chart, and
the chart builder emits exactly one chart of the vertical-bar kind (the
source's "bar") titled for the type category with labels ["Bug", "Task"] and
values [12, 5] in matching order; an empty category mapping never produces a
chart. -/
theorem C5_chart_emission :
    extractGenericData "Bug: 12\nTask: 5" typeKeywords = [("Bug", 12), ("Task", 5)] ∧
    extractGenericData "Bug: 12\nTask: 5" statusKeywords = [] ∧
    extractGenericData "Bug: 12\nTask: 5" priorityKeywords = [] ∧
    extractAllChartData "Bug: 12\nTask: 5" =
      [⟨"bar", ["Bug", "Task"], [12, 5], "Issues by Type"⟩] ∧
    ∀ (ctype title : String), chartOf ctype title [] = [] := by
  refine ⟨by decide, by decide, by decide, by decide, ?_⟩
  intro ctype title
  rfl

/-- C6: the structured report parser on the flattened text
"| A | B |\n|---|---|\n| 1 | 2 |" emits exactly one table node with rows
[["A", "B"], ["1", "2"]]: the dashes separator line is dropped, cells are
split on the pipes and trimmed, and the still-pending table is flushed at end
of input. -/
theorem C6_table_roundtrip :
    parse_and_add_content "| A | B |\n|---|---|\n| 1 | 2 |" =
      [.table [["A", "B"], ["1", "2"]]] := by
  decide

/-- C7 (counterexample): the claim "a blank line does not terminate a pending
table" is false on the code: any non-table line — including a blank one —
while a table is open flushes the accumulated rows, so
"| A |\n\n| B |" parses to two one-row tables, not one two-row table. -/
theorem C7_counterexample :
    parse_and_add_content "| A |\n\n| B |" = [.table [["A"]], .table [["B"]]] ∧
    parse_and_add_content "| A |\n\n| B |" ≠ [.table [["A"], ["B"]]] := by
  constructor
  · decide
  · decide

/-- The first hit of an option cascade is the first defined entry. -/
theorem firstSome_at {α : Type} :
    ∀ (l : List (Option α)) (i : Nat) (v : α),
      l.get? i = some (some v) → (∀ j, j < i → l.get? j = some none) →
      firstSome l = some v := by
  intro l
  induction l with
  | nil =>
    intro i v h _
    simp at h
  | cons x xs ih =>
    intro i v h hj
    cases i with
    | zero =>
      simp only [List.get?] at h
      injection h with h2
      subst h2
      rfl
    | succ n =>
      have h0 := hj 0 (Nat.succ_pos n)
      simp only [List.get?] at h0
      injection h0 with h02
      subst h02
      simp only [firstSome]
      exact ih n v (by simpa using h) (fun j hjn => by simpa using hj (j + 1) (by omega))

/-- C4: the keyword miner is deterministic (it is a pure function: two runs
on equal inputs give equal mappings, definitionally), and for a keyword whose
patterns give results `patResults` (pattern 1 first), the value stored is the
one from the lowest-numbered pattern with a match: if pattern i matches with
value v and all lower-numbered patterns fail, the mined value is v. -/
theorem C4_mine_deterministic_priority :
    ∀ (content : String) (kws : List String) (kw : String) (i : Nat) (v : ℚ),
      extractGenericData content kws = extractGenericData content kws ∧
      ((patResults content kw).get? i = some (some v) →
        (∀ j, j < i → (patResults content kw).get? j = some none) →
        mineKeyword content kw = some v) := by
  intro content kws kw i v
  exact ⟨rfl, fun h hj => firstSome_at _ i v h hj⟩

/-- C4 (witness): on "Bug (7) end" patterns 1 and 2 fail and pattern 3
(parenthesised count) produces 7, so the miner returns 7. -/
theorem C4_witness : mineKeyword "Bug (7) end" "Bug" = some 7 :=
  (C4_mine_deterministic_priority "Bug (7) end" [] "Bug" 2 7).2 (by decide) (by decide)

/-- C7 (amended): in the report parser's line loop, a blank line arriving
while a table is open terminates the table — the accumulated rows are flushed
as a table node (when non-empty) and the in-table flag is cleared — and then
flushes any pending list; it does not leave the table rows pending. -/
theorem C7_amended_blank_line_flushes_table :
    ∀ (cl : List String) (rows : List (List String)), rows ≠ [] →
      lineStep ⟨cl, true, rows⟩ "" =
        (⟨[], false, []⟩, ReportNode.table rows :: flushListNodes cl) := by
  intro cl rows hrows
  by_cases hcl : cl = []
  · subst hcl
    simp +decide [lineStep, addTableNodes, flushListNodes, hrows]
  · simp +decide [lineStep, addTableNodes, flushListNodes, hrows, hcl]

/-- C7 (witness): the amended theorem at a one-row table and empty list. -/
theorem C7_witness :
    lineStep ⟨[], true, [["A"]]⟩ "" = (⟨[], false, []⟩, [ReportNode.table [["A"]]]) :=
  C7_amended_blank_line_flushes_table [] [["A"]] (by decide)

/-- C8: when the working string fails strict JSON parse, the source parses
exactly the brace-balanced prefix found by the depth scan (only attempted
when the string starts with a brace) and returns the reduction of that
parsed prefix; when that recovery fails — no balanced prefix, an unparseable
prefix, or a non-brace start — the decoded response is returned verbatim.
The parse failure itself is consumed by the fallback chain and never
surfaces: every non-parsing input yields `.ok` of the decoded string. -/
theorem C8_prefix_recovery :
    ∀ s js : String, js = workingStr (htmlUnescape s) → s ≠ "" →
      json_loads js = .error () →
      ((∀ (e : Nat) (v : JVal), sStartsWith js "\x7b" = true →
          braceScanEnd js = some e → json_loads (strTake js e) = .ok v →
          extract_readable_content s = extractAllF (jsize v) v) ∧
        ((sStartsWith js "\x7b" = false ∨ braceScanEnd js = none ∨
            (∃ e, braceScanEnd js = some e ∧ json_loads (strTake js e) = .error ())) →
          extract_readable_content s = .ok (htmlUnescape s))) := by
  intro s js hjs hs herr
  subst hjs
  unfold extract_readable_content parseStage
  rw [if_neg hs, herr]
  constructor
  · intro e v hbr hscan hparse
    simp [hbr, hscan, hparse]
  · intro hfail
    rcases hfail with hfail | hfail | ⟨e, he, hpe⟩
    · rw [hfail]
      simp
    · cases hsw : sStartsWith (workingStr (htmlUnescape s)) "\x7b" with
      | false => simp
      | true =>
        rw [hfail]
        simp
    · cases hsw : sStartsWith (workingStr (htmlUnescape s)) "\x7b" with
      | false => simp
      | true => simp [he, hpe]

/-- C8 (witness): a balanced object followed by trailing text is recovered
via the brace scan and reduced. -/
theorem C8_witness :
    extract_readable_content "\x7b\"a\": 1\x7d x" =
      extractAllF (jsize (JVal.obj [("a", JVal.num 1)])) (JVal.obj [("a", JVal.num 1)]) :=
  (C8_prefix_recovery "\x7b\"a\": 1\x7d x" (workingStr (htmlUnescape "\x7b\"a\": 1\x7d x"))
    rfl (by decide) rfl).1 8 (JVal.obj [("a", JVal.num 1)]) rfl rfl rfl

/-- C9: on plain prose — no `<content>` envelope, and the decoded stripped
text neither parses as JSON nor yields a parseable balanced-brace prefix —
extraction returns the HTML-decoded input unchanged. -/
theorem C9_plain_prose_identity :
    ∀ s : String, contentSearch (htmlUnescape s) = none →
      parseStage (sTrim (htmlUnescape s)) = none →
      extract_readable_content s = .ok (htmlUnescape s) := by
  intro s hcs hps
  by_cases hs : s = ""
  · subst hs
    rfl
  · unfold extract_readable_content
    rw [if_neg hs]
    unfold workingStr
    rw [hcs, hps]

/-- C9 (witness): plain prose comes back unchanged. -/
theorem C9_witness : extract_readable_content "hello world" = .ok (htmlUnescape "hello world") :=
  C9_plain_prose_identity "hello world" rfl rfl

/-- C10: keyword matching uses raw substring regexes with no word-boundary
anchors: mining "Sub-task: 3" with the single keyword "Task" captures 3
(pattern 1 matches the "task" inside "Sub-task"), and mining "Reopened: 4"
with "Open" captures 4 via pattern 5 (the "open" inside "Reopened" followed
by a digit at end of line); the recorded pattern results confirm which
pattern fired. -/
theorem C10_substring_keyword_capture :
    extractGenericData "Sub-task: 3" ["Task"] = [("Task", 3)] ∧
    extractGenericData "Reopened: 4" ["Open"] = [("Open", 4)] ∧
    (patResults "Sub-task: 3" "Task").get? 0 = some (some 3) ∧
    patResults "Reopened: 4" "Open" = [none, none, none, none, some 4, none] := by
  refine ⟨by decide, by decide, by decide, by decide⟩

end GenUI
